import Mathlib

/-!
Verification development for the ralph autonomous-loop repository.

Strings of the JavaScript/TypeScript source are modelled as `List Char`.
The handful of regular expressions the source uses are small and
deterministic (each greedy star is followed by a character the starred
class cannot match), so each one is embedded as an explicit matcher on
`List Char`.  Effectful operations (git calls, the agent runner, file
reads) are modelled by threading their results in as oracle values: a
loop iteration becomes a pure step function from the loop's mutable
variables plus an environment record of this iteration's external
results to an outcome (exit with a code, crash on an unhandled
rejection, or continue with updated variables) together with a record
of the observable effects (which prompt the agent was invoked with,
whether the supervisor ran, whether the decision function was called,
whether a push was attempted and whether its failure was logged).
-/

-- ════════════════════════════════════════════════════════════
-- JS string-model primitives
-- ════════════════════════════════════════════════════════════

/-- Character class of the JavaScript regex whitespace class (backslash-s),
which is also the set trimmed by String.prototype.trim. -/
def jsWs (c : Char) : Bool :=
  c = ' ' || c = '\t' || c = '\n' || c = '\x0b' || c = '\x0c' || c = '\r' ||
  c = ' ' || c = ' ' || (' ' ≤ c && c ≤ ' ') ||
  c = ' ' || c = ' ' || c = ' ' || c = ' ' ||
  c = '　' || c = '﻿'

/-- JavaScript LineTerminator set: the positions after these characters are
the multiline anchors of the caret, and the dot class excludes them. -/
def isLineTerm (c : Char) : Bool :=
  c = '\n' || c = '\r' || c = ' ' || c = ' '

/-- Drop an exact literal prefix, returning the rest on a match. -/
def dropLit : List Char → List Char → Option (List Char)
  | [], s => some s
  | _ :: _, [] => none
  | c :: cs, d :: ds => if d = c then dropLit cs ds else none

/-- Model of String.prototype.trim (both ends, JS whitespace). -/
def jsTrim (s : List Char) : List Char :=
  List.rdropWhile jsWs (s.dropWhile jsWs)

-- ════════════════════════════════════════════════════════════
-- spec-core.ts: WIP marker (claim / release)
-- ════════════════════════════════════════════════════════════

/-- Marker added to top of file when a worker is implementing it. -/
def WIP_MARKER : List Char := "<!-- WIP: IN PROGRESS -->".toList

/-- Literal segment of the WIP pattern: comment opener. -/
def litCommentOpen : List Char := "<!--".toList

/-- Literal segment of the WIP pattern. -/
def litWipColon : List Char := "WIP:".toList

/-- Literal segment of the WIP pattern. -/
def litInProgress : List Char := "IN PROGRESS".toList

/-- Literal segment of the WIP pattern: comment closer. -/
def litCommentClose : List Char := "-->".toList

/-- Matcher for the anchored WIP pattern: on success returns the input
with the matched prefix removed (the effect of replace with the empty
string).  Each greedy whitespace star is followed by a non-whitespace
literal, so maximal munch is the unique match. -/
def wipStrip (s : List Char) : Option (List Char) :=
  match dropLit litCommentOpen s with
  | none => none
  | some s1 =>
    match dropLit litWipColon (s1.dropWhile jsWs) with
    | none => none
    | some s2 =>
      match dropLit litInProgress (s2.dropWhile jsWs) with
      | none => none
      | some s3 => dropLit litCommentClose (s3.dropWhile jsWs)

/-- Model of WIP_PATTERN.test. -/
def wipTest (s : List Char) : Bool :=
  (wipStrip s).isSome

/-- markSpecAsWIP, on the file content it rewrites: prepend the marker and
a blank line unless the pattern already matches. -/
def markSpecAsWIP (content : List Char) : List Char :=
  if wipTest content then content
  else WIP_MARKER ++ ('\n' :: '\n' :: content)

/-- unmarkSpecAsWIP, on the file content it rewrites: if the pattern
matches, strip it, trim, and append a newline; otherwise leave the file
untouched. -/
def unmarkSpecAsWIP (content : List Char) : List Char :=
  match wipStrip content with
  | none => content
  | some rest => jsTrim rest ++ ['\n']

/-- The content field computed by readSpecFile: raw content with the WIP
marker stripped and trimmed when present. -/
def specContent (raw : List Char) : List Char :=
  match wipStrip raw with
  | none => raw
  | some rest => jsTrim rest

-- ════════════════════════════════════════════════════════════
-- spec-core.ts: numbering and filenames
-- ════════════════════════════════════════════════════════════

/-- Fold a digit string to its numeric value (parseInt base 10 applied to
the all-digit capture group). -/
def digitsToNat (l : List Char) : Nat :=
  l.foldl (fun acc c => 10 * acc + (c.toNat - 48)) 0

/-- parseSpecNumber: the anchored digits-then-dash pattern.  The greedy
digit run is followed by a dash, which is no digit, so the unique match
takes the maximal digit prefix. -/
def parseSpecNumber (filename : List Char) : Option Nat :=
  match filename.takeWhile Char.isDigit, filename.dropWhile Char.isDigit with
  | [], _ => none
  | _ :: _, [] => none
  | ds@(_ :: _), c :: _ => if c = '-' then some (digitsToNat ds) else none

/-- getNextSpecNumber over the list of filenames the directory currently
contains: Math.max of the parsed prefixes plus one, or 1 when none parse. -/
def getNextSpecNumber (files : List (List Char)) : Nat :=
  match files.filterMap parseSpecNumber with
  | [] => 1
  | n :: rest => rest.foldl max n + 1

/-- deleteSpec, on the directory listing: remove the named file. -/
def deleteSpec (files : List (List Char)) (name : List Char) : List (List Char) :=
  files.filter (fun f => f ≠ name)

/-- Decimal rendering of a number (JS Number.prototype.toString for the
natural numbers the spec system works with). -/
def natDigits (n : Nat) : List Char :=
  if _h : n < 10 then [Char.ofNat (48 + n)]
  else natDigits (n / 10) ++ [Char.ofNat (48 + n % 10)]
termination_by n
decreasing_by exact Nat.div_lt_self (by omega) (by decide)

/-- formatSpecNumber: pad the decimal rendering to width 3 with zeros. -/
def formatSpecNumber (n : Nat) : List Char :=
  List.replicate (3 - (natDigits n).length) '0' ++ natDigits n

/-- Model of String.prototype.toLowerCase (exact on ASCII, which is all
the sanitiser keeps). -/
def jsToLower (l : List Char) : List Char :=
  l.map Char.toLower

/-- The character class the sanitiser keeps. -/
def isLowerAlnum (c : Char) : Bool :=
  ('a' ≤ c && c ≤ 'z') || ('0' ≤ c && c ≤ '9')

/-- Global replace of every maximal run of characters outside the kept
class by a single dash.  The flag records whether the previous character
was part of such a run. -/
def dashRuns : List Char → Bool → List Char
  | [], _ => []
  | c :: cs, inRun =>
    if isLowerAlnum c then c :: dashRuns cs false
    else if inRun then dashRuns cs true
    else '-' :: dashRuns cs true

/-- Global replace of the leading dash run and the trailing dash run by
the empty string. -/
def trimDashes (l : List Char) : List Char :=
  List.rdropWhile (fun c => c = '-') (l.dropWhile (fun c => c = '-'))

/-- The sanitised description used by createSpecFilename: lowercase,
collapse non-alphanumeric runs to dashes, strip edge dashes, cap at 50. -/
def sanitizeDescription (description : List Char) : List Char :=
  (trimDashes (dashRuns (jsToLower description) false)).take 50

/-- Fallback slug when the sanitised description is empty. -/
def litSpecSlug : List Char := "spec".toList

/-- The markdown extension. -/
def litMdExt : List Char := ".md".toList

/-- createSpecFilename: padded number, dash, slug (with a fallback when
the sanitised description is empty), and the markdown extension. -/
def createSpecFilename (number : Nat) (description : List Char) : List Char :=
  let sanitized := sanitizeDescription description
  formatSpecNumber number ++
    '-' :: (if sanitized.isEmpty then litSpecSlug else sanitized) ++ litMdExt

/-- A spec file as parsed by readSpecFile (the path field, which is just
the directory joined with the name, is omitted). -/
structure SpecFile where
  name : List Char
  number : Nat
  isWIP : Bool
  content : List Char
  rawContent : List Char
deriving DecidableEq

/-- readSpecFile on a directory entry: markdown files with a parsable
numeric prefix produce a SpecFile; everything else is skipped. -/
def readSpecFile (filename : List Char) (raw : List Char) : Option SpecFile :=
  if litMdExt.isSuffixOf filename then
    match parseSpecNumber filename with
    | none => none
    | some number =>
      some { name := filename, number := number, isWIP := wipTest raw,
             content := specContent raw, rawContent := raw }
  else none

/-- Stable insertion into a list sorted by number: the new element goes
in front of the first element with a number at least as large, so
earlier directory entries stay in front of later ones with equal
numbers. -/
def insertByNumber (a : SpecFile) : List SpecFile → List SpecFile
  | [] => [a]
  | b :: t => if a.number ≤ b.number then a :: b :: t else b :: insertByNumber a t

/-- Stable sort by the numeric prefix: the unique stable sort, hence the
result of Array.prototype.sort (stable per the language spec) under the
comparator that subtracts the numbers. -/
def sortByNumber : List SpecFile → List SpecFile
  | [] => []
  | a :: t => insertByNumber a (sortByNumber t)

/-- listSpecs on a directory listing of (filename, raw content) pairs:
parse each entry and sort by number. -/
def listSpecs (dir : List (List Char × List Char)) : List SpecFile :=
  sortByNumber (dir.filterMap (fun e => readSpecFile e.1 e.2))

-- ════════════════════════════════════════════════════════════
-- Checklist matchers (the unchecked-todo regexes)
-- ════════════════════════════════════════════════════════════

/-- The literal empty checkbox. -/
def litBox : List Char := "[ ]".toList

/-- Bullet characters accepted in front of a checkbox. -/
def isBullet (c : Char) : Bool :=
  c = '-' || c = '*' || c = '+'

/-- Anchored test for the bare checkbox pattern (whitespace run, bullet,
whitespace run, empty checkbox) at the current position. -/
def boxTest (l : List Char) : Bool :=
  match l.dropWhile jsWs with
  | [] => false
  | c :: l2 => isBullet c && litBox.isPrefixOf (l2.dropWhile jsWs)

/-- Anchored matcher for the full unchecked-todo pattern: bare checkbox,
at least one whitespace character, then the dot-star capture up to the
line end.  On success returns the capture (untrimmed) and the suffix at
the match end.  The greedy whitespace plus may cross line terminators
(they are whitespace), and the end anchor always holds right after the
maximal run of non-terminator characters, so the pattern matches exactly
when a whitespace character follows the checkbox. -/
def todoMatchAt (l : List Char) : Option (List Char × List Char) :=
  match l.dropWhile jsWs with
  | [] => none
  | c :: l2 =>
    if isBullet c then
      match dropLit litBox (l2.dropWhile jsWs) with
      | none => none
      | some l4 =>
        match l4 with
        | [] => none
        | d :: _ =>
          if jsWs d then
            some ((l4.dropWhile jsWs).takeWhile (fun e => !isLineTerm e),
                  (l4.dropWhile jsWs).dropWhile (fun e => !isLineTerm e))
          else none
    else none

/-- Advance to the next multiline anchor: the position right after the
next line terminator. -/
def nextAnchor : List Char → Option (List Char)
  | [] => none
  | c :: r => if isLineTerm c then some r else nextAnchor r

/-- Multiline test of the bare checkbox pattern: try every anchor from
the current position on. -/
def hasBoxAnywhere (l : List Char) : Bool :=
  boxTest l ||
    (match ha : nextAnchor l with
     | some r => hasBoxAnywhere r
     | none => false)
termination_by l.length
decreasing_by
  have hna : ∀ (x y : List Char), nextAnchor x = some y → y.length < x.length := by
    intro x
    induction x with
    | nil => intro y h; rw [nextAnchor] at h; cases h
    | cons c t ih =>
      intro y h
      rw [nextAnchor] at h
      split at h
      · cases h; simp
      · exact Nat.lt_trans (ih y h) (by simp)
  exact hna l r ha

/-- Global multiline scan of the unchecked-todo pattern, trimming each
capture (the matchAll-based getUncheckedTodos).  After a match the scan
resumes at the match end; the next attemptable position is the next
anchor from there. -/
def todoScanAll (l : List Char) : List (List Char) :=
  match hm : todoMatchAt l with
  | some (cap, rest) =>
    jsTrim cap ::
      (match ha : nextAnchor rest with
       | some r2 => todoScanAll r2
       | none => [])
  | none =>
    match ha : nextAnchor l with
    | some r => todoScanAll r
    | none => []
termination_by l.length
decreasing_by
  · have hdw : ∀ (p : Char → Bool) (x : List Char), (x.dropWhile p).length ≤ x.length := by
      intro p x
      exact List.Sublist.length_le (List.dropWhile_sublist p)
    have hdl : ∀ (lit x y : List Char), dropLit lit x = some y → y.length ≤ x.length := by
      intro lit
      induction lit with
      | nil =>
        intro x y h
        rw [dropLit] at h
        cases h
        exact Nat.le_refl _
      | cons c cs ih =>
        intro x y h
        cases x with
        | nil => rw [dropLit] at h; cases h
        | cons d ds =>
          rw [dropLit] at h
          split at h
          · exact Nat.le_trans (ih ds y h) (by simp)
          · cases h
    have hna : ∀ (x y : List Char), nextAnchor x = some y → y.length < x.length := by
      intro x
      induction x with
      | nil => intro y h; rw [nextAnchor] at h; cases h
      | cons c t ih =>
        intro y h
        rw [nextAnchor] at h
        split at h
        · cases h; simp
        · exact Nat.lt_trans (ih y h) (by simp)
    have hma : ∀ (x cp rst : List Char), todoMatchAt x = some (cp, rst) → rst.length < x.length := by
      intro x cp rst h
      rw [todoMatchAt] at h
      split at h
      · exact absurd h (by simp)
      · rename_i c l2 heq
        have hl2 : l2.length < x.length := by
          have hle := hdw jsWs x
          rw [heq] at hle
          simp at hle
          omega
        split at h
        · split at h
          · exact absurd h (by simp)
          · rename_i l4 hlit
            have hl4 : l4.length ≤ l2.length := by
              have hb := hdl litBox (l2.dropWhile jsWs) l4 hlit
              have h3 := hdw jsWs l2
              omega
            split at h
            · exact absurd h (by simp)
            · rename_i d tl
              split at h
              · cases h
                have h4 := hdw jsWs (d :: tl)
                have h5 := hdw (fun e => !isLineTerm e) ((d :: tl).dropWhile jsWs)
                simp only [List.length_cons] at hl4 h4 ⊢
                omega
              · exact absurd h (by simp)
        · exact absurd h (by simp)
    exact Nat.lt_trans (hna rest r2 ha) (hma l cap rest hm)
  · have hna : ∀ (x y : List Char), nextAnchor x = some y → y.length < x.length := by
      intro x
      induction x with
      | nil => intro y h; rw [nextAnchor] at h; cases h
      | cons c t ih =>
        intro y h
        rw [nextAnchor] at h
        split at h
        · cases h; simp
        · exact Nat.lt_trans (ih y h) (by simp)
    exact hna l r ha

-- ════════════════════════════════════════════════════════════
-- Loop skeleton: outcomes, effects, push
-- ════════════════════════════════════════════════════════════

/-- Result of one loop iteration: process exit with a code, a crash from
an unhandled rejection, or continuation with the updated mutable
variables (iteration count and commits-since-start). -/
inductive StepOutcome where
  | exited (code : Nat)
  | crashed
  | continued (iteration : Nat) (commits : Int)
deriving DecidableEq

/-- Observable effects of one loop iteration. -/
structure RunEffects where
  decideCalled : Bool := false
  supervisorRan : Bool := false
  agentPrompt : Option (List Char) := none
  markedWIP : Option (List Char) := none
  pushAttempted : Bool := false
  pushFailureLogged : Bool := false
deriving DecidableEq

/-- The raw git push: the oracle says whether the remote accepts it. -/
def pushRaw (succeeds : Bool) : Except Unit Unit :=
  if succeeds then Except.ok () else Except.error ()

/-- push of the loop engines (core.ts and spec-core.ts): try the raw
push; a rejection is caught and logged as non-fatal.  Returns whether
the failure log line was emitted; never propagates the error. -/
def pushCaught (succeeds : Bool) : Except Unit Bool :=
  match pushRaw succeeds with
  | Except.ok _ => Except.ok false
  | Except.error _ => Except.ok true

/-- push of agents/internal.ts: the raw push with no catch, so a
rejection propagates to the caller. -/
def pushInternal (succeeds : Bool) : Except Unit Unit :=
  pushRaw succeeds

-- ════════════════════════════════════════════════════════════
-- core.ts (the loop engine): one iteration of loop()
-- ════════════════════════════════════════════════════════════

namespace CoreLoop

/-- The tag of an Action. -/
inductive ActionType where
  | work
  | generate
  | halt
deriving DecidableEq

/-- An Action as produced by the decision function.  RunOptions (model,
provider, tools, timeout) only select arguments of the agent runner and
are omitted. -/
structure Action where
  type : ActionType
  prompt : List Char := []
  reason : List Char := []

/-- Action creator work(): do work, then continue looping. -/
def work (prompt : List Char) : Action :=
  { type := ActionType.work, prompt := jsTrim prompt }

/-- Action creator generate(): generate tasks, then the loop continues. -/
def generate (prompt : List Char) : Action :=
  { type := ActionType.generate, prompt := jsTrim prompt }

/-- Action creator halt(): stop the loop entirely. -/
def halt (reason : List Char) : Action :=
  { type := ActionType.halt, reason := reason }

/-- The State record passed to the decision function. -/
structure State where
  iteration : Nat
  commits : Int
  hasTodos : Bool
  nextTodo : Option (List Char)
  todos : List (List Char)
  context : Option (List Char)
  hasUncommittedChanges : Bool

/-- Supervisor configuration (its run closure is an opaque effect). -/
structure SupervisorConfig where
  every : Int

/-- Loop configuration (name and timeout omitted: they only label logs
and bound the agent runner). -/
structure LoopConfig where
  pushEvery : Option Int := none
  maxIterations : Option Nat := none
  supervisor : Option SupervisorConfig := none
  run : State → Action

/-- Oracle record of the external results one iteration observes. -/
structure LoopEnv where
  taskFileContent : List Char
  uncommitted : Bool
  context : Option (List Char)
  commitCountAfterSupervisor : Nat
  commitCountAfterAction : Nat
  pushSucceeds : Bool
  taskFileContentAtEnd : List Char
  once : Bool
  dryRun : Bool

/-- The trimmed RESUME_SUFFIX template of core.ts. -/
def RESUME_SUFFIX : List Char :=
  ("---\nNOTE: There are uncommitted changes from a previous run.\nRun \"git diff\" to see the current state.\nFinish the in-progress work and commit.").toList

/-- withResume: append the resume addendum after a blank line exactly
when the dirty flag is set. -/
def withResume (prompt : List Char) (hasChanges : Bool) : List Char :=
  if hasChanges then prompt ++ '\n' :: '\n' :: RESUME_SUFFIX else prompt

/-- getUncheckedTodos of core.ts: all matches of the global multiline
unchecked-todo pattern, each capture trimmed. -/
def getUncheckedTodos (content : List Char) : List (List Char) :=
  todoScanAll content

/-- The State built at the top of each iteration. -/
def buildState (iteration : Nat) (commits : Int) (env : LoopEnv) : State :=
  { iteration := iteration
    commits := commits
    hasTodos := decide ((getUncheckedTodos env.taskFileContent).length > 0)
    nextTodo := (getUncheckedTodos env.taskFileContent).head?
    todos := getUncheckedTodos env.taskFileContent
    context := env.context
    hasUncommittedChanges := env.uncommitted }

/-- The supervisor cadence condition of loop(): a supervisor is
configured, commits since start is positive and divides evenly. -/
def supervisorDue (sup : Option SupervisorConfig) (commits : Int) : Bool :=
  match sup with
  | some s => decide (commits > 0) && (Int.tmod commits s.every == 0)
  | none => false

/-- Everything after the agent ran and ensureCommit reconciled: update
the commit counter, push on cadence (failures swallowed), re-read the
task file, exit successfully when a work action left no unchecked todos,
exit on the once flag, else continue. -/
def loopTail (cfg : LoopConfig) (iteration : Nat) (startCount : Nat) (env : LoopEnv)
    (atype : ActionType) (eff : RunEffects) : StepOutcome × RunEffects :=
  let pushEvery := cfg.pushEvery.getD 4
  let commits : Int := (env.commitCountAfterAction : Int) - (startCount : Int)
  let pushDue := decide (commits > 0) && (Int.tmod commits pushEvery == 0)
  match (if pushDue then pushCaught env.pushSucceeds else Except.ok false) with
  | Except.error _ => (StepOutcome.crashed, eff)
  | Except.ok logged =>
    let eff2 := { eff with pushAttempted := pushDue, pushFailureLogged := logged }
    if (getUncheckedTodos env.taskFileContentAtEnd).length == 0 && atype == ActionType.work then
      (StepOutcome.exited 0, eff2)
    else if env.once then (StepOutcome.exited 0, eff2)
    else (StepOutcome.continued iteration commits, eff2)

/-- One iteration of loop() of core.ts. -/
def loopStep (cfg : LoopConfig) (iter0 : Nat) (commits0 : Int) (startCount : Nat)
    (env : LoopEnv) : StepOutcome × RunEffects :=
  let maxIterations := cfg.maxIterations.getD 400
  let iteration := iter0 + 1
  if iteration > maxIterations then (StepOutcome.exited 0, {})
  else
    let st := buildState iteration commits0 env
    if supervisorDue cfg.supervisor commits0 then
      if env.dryRun then (StepOutcome.exited 0, {})
      else (StepOutcome.continued iteration
              ((env.commitCountAfterSupervisor : Int) - (startCount : Int)),
            { supervisorRan := true })
    else
      let action := cfg.run st
      match action.type with
      | ActionType.halt => (StepOutcome.exited 0, { decideCalled := true })
      | ActionType.generate =>
        if env.dryRun then (StepOutcome.exited 0, { decideCalled := true })
        else
          loopTail cfg iteration startCount env ActionType.generate
            { decideCalled := true
              agentPrompt := some (withResume action.prompt env.uncommitted) }
      | ActionType.work =>
        if env.dryRun then (StepOutcome.exited 0, { decideCalled := true })
        else
          loopTail cfg iteration startCount env ActionType.work
            { decideCalled := true
              agentPrompt := some (withResume action.prompt env.uncommitted) }

end CoreLoop

-- ════════════════════════════════════════════════════════════
-- spec-core.ts: one iteration of specLoop()
-- ════════════════════════════════════════════════════════════

namespace SpecCore

/-- The tag of a SpecAction. -/
inductive SpecActionType where
  | research
  | implement
  | halt
deriving DecidableEq

/-- A SpecAction as produced by the decision function (RunOptions
omitted as above). -/
structure SpecAction where
  type : SpecActionType
  prompt : List Char := []
  reason : List Char := []

/-- Action creator research(). -/
def research (prompt : List Char) : SpecAction :=
  { type := SpecActionType.research, prompt := jsTrim prompt }

/-- Action creator implement(). -/
def implement (prompt : List Char) : SpecAction :=
  { type := SpecActionType.implement, prompt := jsTrim prompt }

/-- Action creator specHalt(). -/
def specHalt (reason : List Char) : SpecAction :=
  { type := SpecActionType.halt, reason := reason }

/-- The SpecState record passed to the decision function. -/
structure SpecState where
  iteration : Nat
  commits : Int
  specs : List SpecFile
  availableSpecs : List SpecFile
  hasAvailableSpecs : Bool
  nextSpec : Option SpecFile
  context : Option (List Char)
  hasUncommittedChanges : Bool
  specDir : List Char

/-- Supervisor configuration (its run closure is an opaque effect). -/
structure SpecSupervisorConfig where
  every : Int

/-- specLoop configuration (name and timeout omitted as above). -/
structure SpecLoopConfig where
  specDir : List Char := []
  pushEvery : Option Int := none
  maxIterations : Option Nat := none
  continuous : Option Bool := none
  supervisor : Option SpecSupervisorConfig := none
  run : SpecState → SpecAction

/-- Oracle record of the external results one iteration observes: the
directory listing at state build, after the research action, and at the
end-of-iteration re-read. -/
structure SpecEnv where
  dirListing : List (List Char × List Char)
  uncommitted : Bool
  context : Option (List Char)
  commitCountAfterSupervisor : Nat
  commitCountAfterAction : Nat
  dirAfterResearch : List (List Char × List Char)
  dirAtEnd : List (List Char × List Char)
  pushSucceeds : Bool
  once : Bool
  dryRun : Bool

/-- The trimmed RESUME_SUFFIX template of spec-core.ts (same text as the
one of core.ts). -/
def RESUME_SUFFIX : List Char :=
  ("---\nNOTE: There are uncommitted changes from a previous run.\nRun \"git diff\" to see the current state.\nFinish the in-progress work and commit.").toList

/-- withResume of spec-core.ts. -/
def withResume (prompt : List Char) (include_ : Bool) : List Char :=
  if include_ then prompt ++ '\n' :: '\n' :: RESUME_SUFFIX else prompt

/-- shouldRunSupervisor of spec-core.ts. -/
def shouldRunSupervisor (cfg : SpecLoopConfig) (commits : Int) : Bool :=
  match cfg.supervisor with
  | some s => decide (commits > 0) && (Int.tmod commits s.every == 0)
  | none => false

/-- The SpecState built at the top of each iteration. -/
def buildSpecState (cfg : SpecLoopConfig) (iteration : Nat) (commits : Int)
    (env : SpecEnv) : SpecState :=
  { iteration := iteration
    commits := commits
    specs := listSpecs env.dirListing
    availableSpecs := (listSpecs env.dirListing).filter (fun s => !s.isWIP)
    hasAvailableSpecs :=
      decide (((listSpecs env.dirListing).filter (fun s => !s.isWIP)).length > 0)
    nextSpec := ((listSpecs env.dirListing).filter (fun s => !s.isWIP)).head?
    context := env.context
    hasUncommittedChanges := env.uncommitted
    specDir := cfg.specDir }

/-- Everything after the action ran and ensureCommit reconciled: update
the commit counter, push on cadence (failures swallowed), re-read the
directory, exit successfully when an implement action left a fully empty
directory (no available and no WIP specs) in non-continuous mode, exit
on the once flag, else continue. -/
def specTail (cfg : SpecLoopConfig) (continuous : Bool) (iteration : Nat)
    (startCount : Nat) (env : SpecEnv) (atype : SpecActionType) (eff : RunEffects) :
    StepOutcome × RunEffects :=
  let pushEvery := cfg.pushEvery.getD 4
  let commits : Int := (env.commitCountAfterAction : Int) - (startCount : Int)
  let pushDue := decide (commits > 0) && (Int.tmod commits pushEvery == 0)
  match (if pushDue then pushCaught env.pushSucceeds else Except.ok false) with
  | Except.error _ => (StepOutcome.crashed, eff)
  | Except.ok logged =>
    let eff2 := { eff with pushAttempted := pushDue, pushFailureLogged := logged }
    if !continuous &&
       ((listSpecs env.dirAtEnd).filter (fun s => !s.isWIP)).length == 0 &&
       ((listSpecs env.dirAtEnd).filter (fun s => s.isWIP)).length == 0 &&
       atype == SpecActionType.implement then
      (StepOutcome.exited 0, eff2)
    else if env.once then (StepOutcome.exited 0, eff2)
    else (StepOutcome.continued iteration commits, eff2)

/-- One iteration of specLoop() of spec-core.ts.  The research branch
carries the continuous-mode guard: after the action committed, a re-read
directory with no available spec exits with failure status 1. -/
def specLoopStep (cfg : SpecLoopConfig) (iter0 : Nat) (commits0 : Int)
    (startCount : Nat) (env : SpecEnv) : StepOutcome × RunEffects :=
  let maxIterations := cfg.maxIterations.getD 400
  let continuous := cfg.continuous.getD false
  let iteration := iter0 + 1
  if iteration > maxIterations then (StepOutcome.exited 0, {})
  else
    let st := buildSpecState cfg iteration commits0 env
    if shouldRunSupervisor cfg commits0 then
      if env.dryRun then (StepOutcome.exited 0, {})
      else (StepOutcome.continued iteration
              ((env.commitCountAfterSupervisor : Int) - (startCount : Int)),
            { supervisorRan := true })
    else
      let action := cfg.run st
      match action.type with
      | SpecActionType.halt => (StepOutcome.exited 0, { decideCalled := true })
      | SpecActionType.research =>
        if env.dryRun then (StepOutcome.exited 0, { decideCalled := true })
        else
          if continuous &&
             ((listSpecs env.dirAfterResearch).filter (fun s => !s.isWIP)).length == 0 then
            (StepOutcome.exited 1,
             { decideCalled := true
               agentPrompt := some (withResume action.prompt env.uncommitted) })
          else
            specTail cfg continuous iteration startCount env SpecActionType.research
              { decideCalled := true
                agentPrompt := some (withResume action.prompt env.uncommitted) }
      | SpecActionType.implement =>
        if env.dryRun then (StepOutcome.exited 0,
          { decideCalled := true
            markedWIP := st.nextSpec.map (fun s => s.name) })
        else
          specTail cfg continuous iteration startCount env SpecActionType.implement
            { decideCalled := true
              markedWIP := st.nextSpec.map (fun s => s.name)
              agentPrompt := some (withResume action.prompt env.uncommitted) }

end SpecCore

-- ════════════════════════════════════════════════════════════
-- agents/core.ts: the runLoop engine state build
-- ════════════════════════════════════════════════════════════

namespace AgentsCore

/-- hasUncheckedTodos of agents/core.ts: multiline test of the bare
checkbox pattern with no requirement of a label after the box. -/
def hasUncheckedTodos (content : List Char) : Bool :=
  hasBoxAnywhere content

/-- getNextTodo of agents/core.ts: first match of the labelled pattern
(whitespace required after the box), capture trimmed.  The first match
of the non-global regex coincides with the head of the global scan. -/
def getNextTodo (content : List Char) : Option (List Char) :=
  (todoScanAll content).head?

/-- The LoopState record passed to the decide function of runLoop. -/
structure LoopState where
  iteration : Nat
  commitsSinceStart : Int
  hasUncommittedChanges : Bool
  hasTodos : Bool
  nextTodo : Option (List Char)
  taskFileContent : List Char
  context : Option (List Char)
  isFirstIteration : Bool
deriving DecidableEq

/-- The LoopState built at the top of each runLoop iteration: hasTodos
and nextTodo come from the two different regexes above applied to the
same task-file read. -/
def buildLoopState (iteration : Nat) (commitsSinceStart : Int) (content : List Char)
    (uncommitted : Bool) (context : Option (List Char)) : LoopState :=
  { iteration := iteration
    commitsSinceStart := commitsSinceStart
    hasUncommittedChanges := uncommitted
    hasTodos := hasUncheckedTodos content
    nextTodo := getNextTodo content
    taskFileContent := content
    context := context
    isFirstIteration := iteration == 1 }

end AgentsCore

-- ════════════════════════════════════════════════════════════
-- agents/internal.ts helpers and the ralph worker main loop
-- ════════════════════════════════════════════════════════════

namespace RalphMain

/-- hasUncheckedTodos of agents/internal.ts (no optional extra pattern):
false when the file does not exist, else the multiline bare-checkbox
test on its content. -/
def hasUncheckedTodos (file : Option (List Char)) : Bool :=
  match file with
  | none => false
  | some content => hasBoxAnywhere content

/-- getNextTodo of agents/internal.ts: readFile yields the empty string
for a missing file; then the first labelled match, trimmed. -/
def getNextTodo (file : Option (List Char)) : Option (List Char) :=
  match file with
  | none => (todoScanAll []).head?
  | some content => (todoScanAll content).head?

/-- PROMPT_RESUME of agents/internal.ts (trimmed template). -/
def PROMPT_RESUME : List Char :=
  ("NOTE: There are uncommitted changes from a previous execution.\nRun \"git diff\" to understand the state of work.\nFinish/repair the in-progress work and commit.").toList

/-- PROMPT_WITH_TODOS of the ralph worker (trimmed template). -/
def PROMPT_WITH_TODOS : List Char :=
  ("- Look at .ralph/TODO.md for the current task list\n- Pick a logical chunk of work and do it\n- Update .ralph/TODO.md to reflect what you\x27ve done\n- Commit your changes: git add -A && git commit -m \"<what you did>\"\n- Exit after committing").toList

/-- PROMPT_FIND_WORK of the ralph worker (trimmed template). -/
def PROMPT_FIND_WORK : List Char :=
  ("- .ralph/TODO.md has no actionable items. Wipe it clean and start fresh.\n- Look through the codebase and add useful work items to .ralph/TODO.md.\n- Commit: git add -A && git commit -m \"<what you added>\"\n- Exit after committing. Don\x27t do any coding yet.").toList

/-- Head of the promptFindWorkWithContext template, before the operator
context is spliced in. -/
def CTX_HEAD : List Char :=
  ("- .ralph/TODO.md has no actionable items. Wipe it clean and start fresh.\n- Use the following goal as context for what tasks to add (treat it like instructions from the user):\n\n<instructions>\n").toList

/-- Tail of the promptFindWorkWithContext template, after the spliced
context. -/
def CTX_TAIL : List Char :=
  ("\n</instructions>\n\nTASK:\n- Look through the codebase and add useful work items to .ralph/TODO.md.\n- Commit: git add -A && git commit -m \"<what you added>\"\n- Exit after committing. Don\x27t do any coding yet.").toList

/-- promptFindWorkWithContext of the ralph worker: the trimmed template
with the context spliced between the fixed head and tail. -/
def promptFindWorkWithContext (context : List Char) : List Char :=
  CTX_HEAD ++ context ++ CTX_TAIL

/-- The prompt selection of the ralph worker main loop: the resume
addendum is attached only on the first iteration with a dirty tree;
otherwise the base prompt is used unchanged. -/
def ralphPrompt (iteration : Nat) (hasTodos hasChanges : Bool)
    (context : Option (List Char)) : List Char :=
  if hasChanges && iteration == 1 then
    (if hasTodos then PROMPT_WITH_TODOS else PROMPT_FIND_WORK) ++
      '\n' :: '\n' :: PROMPT_RESUME
  else if hasTodos then PROMPT_WITH_TODOS
  else
    match context with
    | some ctx => promptFindWorkWithContext ctx
    | none => PROMPT_FIND_WORK

/-- PUSH_EVERY of the ralph worker. -/
def PUSH_EVERY : Int := 4

/-- Oracle record of the external results one ralph iteration observes. -/
structure RalphEnv where
  todoContent : Option (List Char)
  uncommitted : Bool
  context : Option (List Char)
  commitCountAfterAction : Nat
  pushSucceeds : Bool
  once : Bool
  dryRun : Bool

/-- Result of one ralph iteration: exit, crash from an unhandled
rejection, or continuation with updated iteration and last-push
watermark. -/
inductive RalphOutcome where
  | exited (code : Nat)
  | crashed
  | continued (iteration : Nat) (lastPushAt : Nat)
deriving DecidableEq

/-- One iteration of the ralph worker main loop: build the prompt, run
the agent, reconcile the commit, and push through the uncaught
agents/internal.ts push when the watermark cadence is reached.  The
second component records the prompt the agent runner was invoked with
(none when the dry-run flag exited first). -/
def ralphMainStep (iter0 : Nat) (lastPushAt : Nat) (env : RalphEnv) :
    RalphOutcome × Option (List Char) :=
  let iteration := iter0 + 1
  let prompt := ralphPrompt iteration (hasUncheckedTodos env.todoContent)
    env.uncommitted env.context
  if env.dryRun then (RalphOutcome.exited 0, none)
  else
    let currentCount := env.commitCountAfterAction
    if (currentCount : Int) - (lastPushAt : Int) ≥ PUSH_EVERY then
      match pushInternal env.pushSucceeds with
      | Except.error _ => (RalphOutcome.crashed, some prompt)
      | Except.ok _ =>
        if env.once then (RalphOutcome.exited 0, some prompt)
        else (RalphOutcome.continued iteration currentCount, some prompt)
    else
      if env.once then (RalphOutcome.exited 0, some prompt)
      else (RalphOutcome.continued iteration lastPushAt, some prompt)

end RalphMain

-- ════════════════════════════════════════════════════════════
-- Helper lemmas
-- ════════════════════════════════════════════════════════════

theorem le_foldl_max (rest : List Nat) : ∀ (a b : Nat), (b ≤ a ∨ b ∈ rest) → b ≤ rest.foldl max a := by
  induction rest with
  | nil =>
    intro a b h
    rcases h with h | h
    · simpa using h
    · cases h
  | cons c t ih =>
    intro a b h
    have hstep : b ≤ max a c ∨ b ∈ t := by
      rcases h with h | h
      · exact Or.inl (Nat.le_trans h (Nat.le_max_left a c))
      · rcases List.mem_cons.mp h with h | h
        · exact Or.inl (h ▸ Nat.le_max_right a c)
        · exact Or.inr h
    simpa [List.foldl_cons] using ih (max a c) b hstep

theorem charToNat_ofNat (n : Nat) (h : n < 55296) : (Char.ofNat n).toNat = n := by
  have hv : n.isValidChar := Or.inl h
  simp only [Char.ofNat, dif_pos hv]
  rfl

theorem digitChar_isDigit (d : Nat) (hd : d < 10) : (Char.ofNat (48 + d)).isDigit = true := by
  interval_cases d <;> decide

theorem natDigits_ne_nil (n : Nat) : natDigits n ≠ [] := by
  rw [natDigits]
  split
  · simp
  · simp

theorem natDigits_all_digits (n : Nat) : ∀ c ∈ natDigits n, c.isDigit = true := by
  induction n using Nat.strong_induction_on with
  | _ n ih =>
    intro c hc
    rw [natDigits] at hc
    split at hc
    · rename_i h10
      rw [List.mem_singleton] at hc
      subst hc
      exact digitChar_isDigit n h10
    · rename_i h10
      rcases List.mem_append.mp hc with h | h
      · exact ih (n / 10) (Nat.div_lt_self (by omega) (by decide)) c h
      · rw [List.mem_singleton] at h
        subst h
        exact digitChar_isDigit (n % 10) (Nat.mod_lt n (by decide))

theorem digitsToNat_natDigits (n : Nat) : digitsToNat (natDigits n) = n := by
  induction n using Nat.strong_induction_on with
  | _ n ih =>
    rw [natDigits]
    split
    · rename_i h10
      have h48 : (Char.ofNat (48 + n)).toNat = 48 + n := charToNat_ofNat _ (by omega)
      simp [digitsToNat, h48]
    · rename_i h10
      have hrec := ih (n / 10) (Nat.div_lt_self (by omega) (by decide))
      have h48 : (Char.ofNat (48 + n % 10)).toNat = 48 + n % 10 :=
        charToNat_ofNat _ (by omega)
      have hsplit : digitsToNat (natDigits (n / 10) ++ [Char.ofNat (48 + n % 10)]) =
          10 * digitsToNat (natDigits (n / 10)) + ((Char.ofNat (48 + n % 10)).toNat - 48) := by
        simp [digitsToNat, List.foldl_append]
      rw [hsplit, hrec, h48]
      omega

theorem digitsToNat_zeros (k : Nat) (l : List Char) :
    digitsToNat (List.replicate k '0' ++ l) = digitsToNat l := by
  induction k with
  | zero => simp
  | succ k ih =>
    have hz : ('0'.toNat - 48) = 0 := by decide
    simpa [List.replicate_succ, digitsToNat, hz] using ih

theorem takeWhile_append_sat (p : Char → Bool) (a : List Char) (x : Char) (t : List Char)
    (ha : ∀ c ∈ a, p c = true) (hx : p x = false) :
    (a ++ x :: t).takeWhile p = a ∧ (a ++ x :: t).dropWhile p = x :: t := by
  induction a with
  | nil => simp [List.takeWhile_cons, List.dropWhile_cons, hx]
  | cons c cs ih =>
    have hc : p c = true := ha c (List.mem_cons_self c cs)
    have hcs : ∀ d ∈ cs, p d = true := fun d hd => ha d (List.mem_cons_of_mem c hd)
    have := ih hcs
    simp [List.takeWhile_cons, List.dropWhile_cons, hc, this.1, this.2]

theorem formatSpecNumber_all_digits (n : Nat) : ∀ c ∈ formatSpecNumber n, c.isDigit = true := by
  intro c hc
  rw [formatSpecNumber] at hc
  rcases List.mem_append.mp hc with h | h
  · rw [List.eq_of_mem_replicate h]
    decide
  · exact natDigits_all_digits n c h

theorem formatSpecNumber_ne_nil (n : Nat) : formatSpecNumber n ≠ [] := by
  rw [formatSpecNumber]
  intro h
  rcases List.append_eq_nil.mp h with ⟨_, h2⟩
  exact natDigits_ne_nil n h2

theorem digitsToNat_formatSpecNumber (n : Nat) : digitsToNat (formatSpecNumber n) = n := by
  rw [formatSpecNumber, digitsToNat_zeros, digitsToNat_natDigits]

theorem parseSpecNumber_format (n : Nat) (rest : List Char) :
    parseSpecNumber (formatSpecNumber n ++ '-' :: rest) = some n := by
  have hd : Char.isDigit '-' = false := by decide
  have h12 := takeWhile_append_sat Char.isDigit (formatSpecNumber n) '-' rest
    (formatSpecNumber_all_digits n) hd
  obtain ⟨d, ds, hds⟩ := List.exists_cons_of_ne_nil (formatSpecNumber_ne_nil n)
  rw [parseSpecNumber, h12.1, h12.2, hds]
  simpa [← hds] using digitsToNat_formatSpecNumber n

-- ════════════════════════════════════════════════════════════
-- C1: spec numbering
-- ════════════════════════════════════════════════════════════

/-- C1 counterexample.  The claim says that for a directory seeded with
item numbers 1, 2 and 5, allocateNumber returns 6 even after item 5 is
deleted.  On the code, getNextSpecNumber scans the filenames currently
present: it returns 6 before the deletion but 3 afterwards, so the
number is not preserved and numbers can be reused after deletion. -/
theorem C1_allocate_after_delete_counterexample :
    getNextSpecNumber [ "001-a.md".toList, "002-b.md".toList, "005-c.md".toList ] = 6
    ∧ getNextSpecNumber
        (deleteSpec [ "001-a.md".toList, "002-b.md".toList, "005-c.md".toList ]
          ("005-c.md".toList)) = 3
    ∧ getNextSpecNumber
        (deleteSpec [ "001-a.md".toList, "002-b.md".toList, "005-c.md".toList ]
          ("005-c.md".toList)) ≠ 6 := by
  refine ⟨by decide, by decide, by decide⟩

/-- C1 amended: getNextSpecNumber returns one more than the maximum
numeric prefix among the files currently present (1 when none parse), so
the allocated number is always fresh — strictly above every number in
the directory at allocation time; but monotonicity across deletions does
not hold: for the directory seeded with numbers 1, 2 and 5 it returns 6,
and after deleting item 5 it returns 3 (the number may be reused). -/
theorem C1_allocate_max_plus_one_amended :
    (∀ (files : List (List Char)) (f : List Char) (n : Nat),
        f ∈ files → parseSpecNumber f = some n → n < getNextSpecNumber files)
    ∧ getNextSpecNumber [ "001-a.md".toList, "002-b.md".toList, "005-c.md".toList ] = 6
    ∧ getNextSpecNumber
        (deleteSpec [ "001-a.md".toList, "002-b.md".toList, "005-c.md".toList ]
          ("005-c.md".toList)) = 3 := by
  refine ⟨?_, by decide, by decide⟩
  intro files f n hmem hparse
  have hin : n ∈ files.filterMap parseSpecNumber :=
    List.mem_filterMap.mpr ⟨f, hmem, hparse⟩
  rw [getNextSpecNumber]
  split
  · rename_i hnil
    rw [hnil] at hin
    cases hin
  · rename_i a t heq
    rw [heq] at hin
    have : n ≤ t.foldl max a := by
      rcases List.mem_cons.mp hin with h | h
      · exact le_foldl_max t a n (Or.inl (Nat.le_of_eq h))
      · exact le_foldl_max t a n (Or.inr h)
    omega

/-- C1 amended witness: the freshness bound applied to the seeded
directory at file 001-a.md. -/
theorem C1_allocate_max_plus_one_amended_witness :
    ("001-a.md".toList ∈ [ "001-a.md".toList, "002-b.md".toList, "005-c.md".toList ]
      ∧ parseSpecNumber ("001-a.md".toList) = some 1)
    ∧ 1 < getNextSpecNumber [ "001-a.md".toList, "002-b.md".toList, "005-c.md".toList ] :=
  ⟨⟨by decide, by decide⟩,
    C1_allocate_max_plus_one_amended.1
      [ "001-a.md".toList, "002-b.md".toList, "005-c.md".toList ]
      ("001-a.md".toList) 1 (by decide) (by decide)⟩

-- ════════════════════════════════════════════════════════════
-- C10: filename round trip
-- ════════════════════════════════════════════════════════════

/-- C10: for every number n of at least 1 and every description,
createSpecFilename produces a name that parseSpecNumber parses back to
exactly n; the name always ends in the markdown extension and carries a
non-empty slug between the dash and the extension; consequently
readSpecFile accepts the name whatever the file content is and assigns
it the number n, so files created by createSpec are recognised and
numbered correctly by listSpecs. -/
theorem C10_filename_roundtrip (n : Nat) (hn : 1 ≤ n) (description : List Char) :
    parseSpecNumber (createSpecFilename n description) = some n
    ∧ litMdExt.isSuffixOf (createSpecFilename n description) = true
    ∧ (∃ slug : List Char, slug ≠ [] ∧
        createSpecFilename n description =
          formatSpecNumber n ++ '-' :: (slug ++ litMdExt))
    ∧ ∀ (raw : List Char), ∃ sf : SpecFile,
        readSpecFile (createSpecFilename n description) raw = some sf ∧ sf.number = n := by
  have hparse : parseSpecNumber (createSpecFilename n description) = some n := by
    rw [createSpecFilename]
    show parseSpecNumber ((formatSpecNumber n ++ _) ++ litMdExt) = some n
    rw [List.append_assoc, List.cons_append]
    exact parseSpecNumber_format n _
  have hsuffix : litMdExt.isSuffixOf (createSpecFilename n description) = true := by
    rw [List.isSuffixOf_iff_suffix, createSpecFilename]
    exact List.suffix_append _ _
  refine ⟨hparse, hsuffix, ?_, ?_⟩
  · refine ⟨(if (sanitizeDescription description).isEmpty then litSpecSlug
             else sanitizeDescription description), ?_, by
        simp [createSpecFilename]⟩
    split
    · decide
    · rename_i hne
      exact fun h => hne (by simp [h, List.isEmpty_nil])
  · intro raw
    rw [readSpecFile, if_pos hsuffix, hparse]
    exact ⟨_, rfl, rfl⟩

/-- C10 witness: the round trip at number 3 and a concrete description. -/
theorem C10_filename_roundtrip_witness :
    1 ≤ 3
    ∧ parseSpecNumber (createSpecFilename 3 ("Add Validation!".toList)) = some 3 :=
  ⟨by decide, (C10_filename_roundtrip 3 (by decide) ("Add Validation!".toList)).1⟩

-- ════════════════════════════════════════════════════════════
-- Scanner and step-function helper lemmas
-- ════════════════════════════════════════════════════════════

theorem todoScanAll_nil_of (l : List Char) (h1 : todoMatchAt l = none)
    (h2 : nextAnchor l = none) : todoScanAll l = [] := by
  rw [todoScanAll]
  split
  · rename_i cap rest hm
    rw [h1] at hm
    cases hm
  · split
    · rename_i r ha
      rw [h2] at ha
      cases ha
    · rfl

theorem hasBoxAnywhere_of_boxTest (l : List Char) (h : boxTest l = true) :
    hasBoxAnywhere l = true := by
  rw [hasBoxAnywhere, h, Bool.true_or]

theorem pushCaught_eq (b : Bool) : pushCaught b = Except.ok (!b) := by
  cases b <;> rfl

theorem loopTail_eq (cfg : CoreLoop.LoopConfig) (iteration : Nat) (startCount : Nat)
    (env : CoreLoop.LoopEnv) (atype : CoreLoop.ActionType) (eff : RunEffects) :
    CoreLoop.loopTail cfg iteration startCount env atype eff =
      ((if (CoreLoop.getUncheckedTodos env.taskFileContentAtEnd).length == 0
           && atype == CoreLoop.ActionType.work then
          StepOutcome.exited 0
        else if env.once then StepOutcome.exited 0
        else StepOutcome.continued iteration
          ((env.commitCountAfterAction : Int) - (startCount : Int))),
       { eff with
         pushAttempted :=
           decide ((env.commitCountAfterAction : Int) - (startCount : Int) > 0)
             && (Int.tmod ((env.commitCountAfterAction : Int) - (startCount : Int))
                   (cfg.pushEvery.getD 4) == 0)
         pushFailureLogged :=
           (decide ((env.commitCountAfterAction : Int) - (startCount : Int) > 0)
             && (Int.tmod ((env.commitCountAfterAction : Int) - (startCount : Int))
                   (cfg.pushEvery.getD 4) == 0))
             && !env.pushSucceeds }) := by
  simp only [CoreLoop.loopTail]
  by_cases hb : (decide ((env.commitCountAfterAction : Int) - (startCount : Int) > 0)
      && (Int.tmod ((env.commitCountAfterAction : Int) - (startCount : Int))
            (cfg.pushEvery.getD 4) == 0)) = true
  · rw [hb]
    simp only [if_true, pushCaught_eq, Bool.true_and]
    split
    · rfl
    · split
      · rfl
      · rfl
  · rw [Bool.not_eq_true] at hb
    rw [hb]
    simp only [Bool.false_eq_true, if_false, Bool.false_and]
    split
    · rfl
    · split
      · rfl
      · rfl

theorem specTail_eq (cfg : SpecCore.SpecLoopConfig) (continuous : Bool) (iteration : Nat)
    (startCount : Nat) (env : SpecCore.SpecEnv) (atype : SpecCore.SpecActionType)
    (eff : RunEffects) :
    SpecCore.specTail cfg continuous iteration startCount env atype eff =
      ((if !continuous
           && ((listSpecs env.dirAtEnd).filter (fun s => !s.isWIP)).length == 0
           && ((listSpecs env.dirAtEnd).filter (fun s => s.isWIP)).length == 0
           && atype == SpecCore.SpecActionType.implement then
          StepOutcome.exited 0
        else if env.once then StepOutcome.exited 0
        else StepOutcome.continued iteration
          ((env.commitCountAfterAction : Int) - (startCount : Int))),
       { eff with
         pushAttempted :=
           decide ((env.commitCountAfterAction : Int) - (startCount : Int) > 0)
             && (Int.tmod ((env.commitCountAfterAction : Int) - (startCount : Int))
                   (cfg.pushEvery.getD 4) == 0)
         pushFailureLogged :=
           (decide ((env.commitCountAfterAction : Int) - (startCount : Int) > 0)
             && (Int.tmod ((env.commitCountAfterAction : Int) - (startCount : Int))
                   (cfg.pushEvery.getD 4) == 0))
             && !env.pushSucceeds }) := by
  simp only [SpecCore.specTail]
  by_cases hb : (decide ((env.commitCountAfterAction : Int) - (startCount : Int) > 0)
      && (Int.tmod ((env.commitCountAfterAction : Int) - (startCount : Int))
            (cfg.pushEvery.getD 4) == 0)) = true
  · rw [hb]
    simp only [if_true, pushCaught_eq, Bool.true_and]
    split
    · rfl
    · split
      · rfl
      · rfl
  · rw [Bool.not_eq_true] at hb
    rw [hb]
    simp only [Bool.false_eq_true, if_false, Bool.false_and]
    split
    · rfl
    · split
      · rfl
      · rfl

theorem loopStep_normal (cfg : CoreLoop.LoopConfig) (iter0 : Nat) (commits0 : Int)
    (startCount : Nat) (env : CoreLoop.LoopEnv)
    (hmax : iter0 + 1 ≤ cfg.maxIterations.getD 400)
    (hsup : CoreLoop.supervisorDue cfg.supervisor commits0 = false) :
    CoreLoop.loopStep cfg iter0 commits0 startCount env =
      (match (cfg.run (CoreLoop.buildState (iter0 + 1) commits0 env)).type with
       | CoreLoop.ActionType.halt => (StepOutcome.exited 0, { decideCalled := true })
       | CoreLoop.ActionType.generate =>
         if env.dryRun then (StepOutcome.exited 0, { decideCalled := true })
         else CoreLoop.loopTail cfg (iter0 + 1) startCount env CoreLoop.ActionType.generate
           { decideCalled := true
             agentPrompt := some (CoreLoop.withResume
               (cfg.run (CoreLoop.buildState (iter0 + 1) commits0 env)).prompt
               env.uncommitted) }
       | CoreLoop.ActionType.work =>
         if env.dryRun then (StepOutcome.exited 0, { decideCalled := true })
         else CoreLoop.loopTail cfg (iter0 + 1) startCount env CoreLoop.ActionType.work
           { decideCalled := true
             agentPrompt := some (CoreLoop.withResume
               (cfg.run (CoreLoop.buildState (iter0 + 1) commits0 env)).prompt
               env.uncommitted) }) := by
  simp only [CoreLoop.loopStep]
  rw [if_neg (by omega : ¬ iter0 + 1 > cfg.maxIterations.getD 400)]
  rw [hsup]
  simp only [Bool.false_eq_true, if_false]

theorem loopStep_supervisor (cfg : CoreLoop.LoopConfig) (iter0 : Nat) (commits0 : Int)
    (startCount : Nat) (env : CoreLoop.LoopEnv)
    (hmax : iter0 + 1 ≤ cfg.maxIterations.getD 400)
    (hsup : CoreLoop.supervisorDue cfg.supervisor commits0 = true)
    (hdry : env.dryRun = false) :
    CoreLoop.loopStep cfg iter0 commits0 startCount env =
      (StepOutcome.continued (iter0 + 1)
         ((env.commitCountAfterSupervisor : Int) - (startCount : Int)),
       { supervisorRan := true }) := by
  simp only [CoreLoop.loopStep]
  rw [if_neg (by omega : ¬ iter0 + 1 > cfg.maxIterations.getD 400)]
  rw [hsup]
  simp only [if_true]
  rw [hdry]
  simp only [Bool.false_eq_true, if_false]

theorem specLoopStep_normal (cfg : SpecCore.SpecLoopConfig) (iter0 : Nat) (commits0 : Int)
    (startCount : Nat) (env : SpecCore.SpecEnv)
    (hmax : iter0 + 1 ≤ cfg.maxIterations.getD 400)
    (hsup : SpecCore.shouldRunSupervisor cfg commits0 = false) :
    SpecCore.specLoopStep cfg iter0 commits0 startCount env =
      (match (cfg.run (SpecCore.buildSpecState cfg (iter0 + 1) commits0 env)).type with
       | SpecCore.SpecActionType.halt => (StepOutcome.exited 0, { decideCalled := true })
       | SpecCore.SpecActionType.research =>
         if env.dryRun then (StepOutcome.exited 0, { decideCalled := true })
         else
           if cfg.continuous.getD false &&
              ((listSpecs env.dirAfterResearch).filter (fun s => !s.isWIP)).length == 0 then
             (StepOutcome.exited 1,
              { decideCalled := true
                agentPrompt := some (SpecCore.withResume
                  (cfg.run (SpecCore.buildSpecState cfg (iter0 + 1) commits0 env)).prompt
                  env.uncommitted) })
           else
             SpecCore.specTail cfg (cfg.continuous.getD false) (iter0 + 1) startCount env
               SpecCore.SpecActionType.research
               { decideCalled := true
                 agentPrompt := some (SpecCore.withResume
                   (cfg.run (SpecCore.buildSpecState cfg (iter0 + 1) commits0 env)).prompt
                   env.uncommitted) }
       | SpecCore.SpecActionType.implement =>
         if env.dryRun then
           (StepOutcome.exited 0,
            { decideCalled := true
              markedWIP := (SpecCore.buildSpecState cfg (iter0 + 1) commits0 env).nextSpec.map
                (fun s => s.name) })
         else
           SpecCore.specTail cfg (cfg.continuous.getD false) (iter0 + 1) startCount env
             SpecCore.SpecActionType.implement
             { decideCalled := true
               markedWIP := (SpecCore.buildSpecState cfg (iter0 + 1) commits0 env).nextSpec.map
                 (fun s => s.name)
               agentPrompt := some (SpecCore.withResume
                 (cfg.run (SpecCore.buildSpecState cfg (iter0 + 1) commits0 env)).prompt
                 env.uncommitted) }) := by
  simp only [SpecCore.specLoopStep]
  rw [if_neg (by omega : ¬ iter0 + 1 > cfg.maxIterations.getD 400)]
  rw [hsup]
  simp only [Bool.false_eq_true, if_false]

theorem specLoopStep_supervisor (cfg : SpecCore.SpecLoopConfig) (iter0 : Nat) (commits0 : Int)
    (startCount : Nat) (env : SpecCore.SpecEnv)
    (hmax : iter0 + 1 ≤ cfg.maxIterations.getD 400)
    (hsup : SpecCore.shouldRunSupervisor cfg commits0 = true)
    (hdry : env.dryRun = false) :
    SpecCore.specLoopStep cfg iter0 commits0 startCount env =
      (StepOutcome.continued (iter0 + 1)
         ((env.commitCountAfterSupervisor : Int) - (startCount : Int)),
       { supervisorRan := true }) := by
  simp only [SpecCore.specLoopStep]
  rw [if_neg (by omega : ¬ iter0 + 1 > cfg.maxIterations.getD 400)]
  rw [hsup]
  simp only [if_true]
  rw [hdry]
  simp only [Bool.false_eq_true, if_false]

-- ════════════════════════════════════════════════════════════
-- C9: the checklist predicates can disagree
-- ════════════════════════════════════════════════════════════

/-- C9: for the checklist content consisting of the single line of a
bullet and an empty checkbox with no following label, hasUncheckedTodos
of the runLoop engine returns true (its regex requires nothing after the
box) while getNextTodo returns null (its regex requires at least one
whitespace character after the box), so the LoopState snapshot the
engine builds from that content has hasTodos true and nextTodo null at
the same time; the internal.ts pair behaves the same way. -/
theorem C9_checklist_predicates_disagree :
    AgentsCore.hasUncheckedTodos ("- [ ]".toList) = true
    ∧ AgentsCore.getNextTodo ("- [ ]".toList) = none
    ∧ (AgentsCore.buildLoopState 1 0 ("- [ ]".toList) false none).hasTodos = true
    ∧ (AgentsCore.buildLoopState 1 0 ("- [ ]".toList) false none).nextTodo = none
    ∧ RalphMain.hasUncheckedTodos (some ("- [ ]".toList)) = true
    ∧ RalphMain.getNextTodo (some ("- [ ]".toList)) = none := by
  have hbox : hasBoxAnywhere ("- [ ]".toList) = true :=
    hasBoxAnywhere_of_boxTest _ rfl
  have hscan : todoScanAll ("- [ ]".toList) = [] :=
    todoScanAll_nil_of _ rfl rfl
  have hnext : (todoScanAll ("- [ ]".toList)).head? = none := by
    rw [hscan]
    rfl
  exact ⟨hbox, hnext, hbox, hnext, hbox, hnext⟩

-- ════════════════════════════════════════════════════════════
-- C7: exit status classification
-- ════════════════════════════════════════════════════════════

/-- C7 counterexample.  The claim says that reaching the iteration
ceiling (default 400) terminates with a non-zero exit code.  On the
code, both loop engines call process.exit(0) in the max-iterations
branch: stepping past iteration 400 with the default configuration
exits with code 0, not a non-zero code. -/
theorem C7_ceiling_exit_code_counterexample :
    (CoreLoop.loopStep { run := fun _ => CoreLoop.halt [] } 400 0 0
        { taskFileContent := [], uncommitted := false, context := none,
          commitCountAfterSupervisor := 0, commitCountAfterAction := 0,
          pushSucceeds := true, taskFileContentAtEnd := [], once := false,
          dryRun := false }).1 = StepOutcome.exited 0
    ∧ (SpecCore.specLoopStep { run := fun _ => SpecCore.specHalt [] } 400 0 0
        { dirListing := [], uncommitted := false, context := none,
          commitCountAfterSupervisor := 0, commitCountAfterAction := 0,
          dirAfterResearch := [], dirAtEnd := [], pushSucceeds := true,
          once := false, dryRun := false }).1 = StepOutcome.exited 0 :=
  ⟨rfl, rfl⟩

/-- C7 amended: every termination the iteration machinery itself decides
uses exit code 0 — the iteration ceiling (default 400), an intentional
Halt, and successful completion all exit with code 0; the ceiling is not
distinguished by a non-zero code. -/
theorem C7_exit_codes_amended :
    (∀ (cfg : CoreLoop.LoopConfig) (iter0 : Nat) (commits0 : Int) (startCount : Nat)
       (env : CoreLoop.LoopEnv),
        iter0 + 1 > cfg.maxIterations.getD 400 →
        (CoreLoop.loopStep cfg iter0 commits0 startCount env).1 = StepOutcome.exited 0)
    ∧ (∀ (cfg : SpecCore.SpecLoopConfig) (iter0 : Nat) (commits0 : Int) (startCount : Nat)
         (env : SpecCore.SpecEnv),
        iter0 + 1 > cfg.maxIterations.getD 400 →
        (SpecCore.specLoopStep cfg iter0 commits0 startCount env).1 = StepOutcome.exited 0)
    ∧ (∀ (cfg : CoreLoop.LoopConfig) (iter0 : Nat) (commits0 : Int) (startCount : Nat)
         (env : CoreLoop.LoopEnv),
        iter0 + 1 ≤ cfg.maxIterations.getD 400 →
        CoreLoop.supervisorDue cfg.supervisor commits0 = false →
        (cfg.run (CoreLoop.buildState (iter0 + 1) commits0 env)).type =
          CoreLoop.ActionType.halt →
        (CoreLoop.loopStep cfg iter0 commits0 startCount env).1 = StepOutcome.exited 0)
    ∧ (∀ (cfg : CoreLoop.LoopConfig) (iter0 : Nat) (commits0 : Int) (startCount : Nat)
         (env : CoreLoop.LoopEnv),
        iter0 + 1 ≤ cfg.maxIterations.getD 400 →
        CoreLoop.supervisorDue cfg.supervisor commits0 = false →
        env.dryRun = false →
        (cfg.run (CoreLoop.buildState (iter0 + 1) commits0 env)).type =
          CoreLoop.ActionType.work →
        (CoreLoop.getUncheckedTodos env.taskFileContentAtEnd).length = 0 →
        (CoreLoop.loopStep cfg iter0 commits0 startCount env).1 = StepOutcome.exited 0) := by
  refine ⟨?_, ?_, ?_, ?_⟩
  · intro cfg iter0 commits0 startCount env h
    simp only [CoreLoop.loopStep]
    rw [if_pos h]
  · intro cfg iter0 commits0 startCount env h
    simp only [SpecCore.specLoopStep]
    rw [if_pos h]
  · intro cfg iter0 commits0 startCount env hmax hsup hact
    rw [loopStep_normal cfg iter0 commits0 startCount env hmax hsup, hact]
  · intro cfg iter0 commits0 startCount env hmax hsup hdry hact hdone
    rw [loopStep_normal cfg iter0 commits0 startCount env hmax hsup, hact]
    simp only [hdry, Bool.false_eq_true, if_false]
    rw [loopTail_eq]
    simp only [hdone]
    rfl

/-- C7 amended witness: the ceiling exit of the loop engine at the
default configuration, applied at iteration 400. -/
theorem C7_exit_codes_amended_witness :
    (400 + 1 > ({ run := fun _ => CoreLoop.work [] } :
        CoreLoop.LoopConfig).maxIterations.getD 400)
    ∧ (CoreLoop.loopStep { run := fun _ => CoreLoop.work [] } 400 0 0
        { taskFileContent := [], uncommitted := false, context := none,
          commitCountAfterSupervisor := 0, commitCountAfterAction := 0,
          pushSucceeds := true, taskFileContentAtEnd := [], once := false,
          dryRun := false }).1 = StepOutcome.exited 0 :=
  ⟨by decide,
    C7_exit_codes_amended.1 { run := fun _ => CoreLoop.work [] } 400 0 0
      { taskFileContent := [], uncommitted := false, context := none,
        commitCountAfterSupervisor := 0, commitCountAfterAction := 0,
        pushSucceeds := true, taskFileContentAtEnd := [], once := false,
        dryRun := false } (by decide)⟩

theorem supervisorDue_iff (s : Option CoreLoop.SupervisorConfig) (c : Int) :
    CoreLoop.supervisorDue s c = true ↔
      ∃ sup, s = some sup ∧ c > 0 ∧ Int.tmod c sup.every = 0 := by
  cases s with
  | none => simp [CoreLoop.supervisorDue]
  | some sup =>
    simp [CoreLoop.supervisorDue, Bool.and_eq_true, decide_eq_true_eq, beq_iff_eq]

theorem shouldRunSupervisor_iff (cfg : SpecCore.SpecLoopConfig) (c : Int) :
    SpecCore.shouldRunSupervisor cfg c = true ↔
      ∃ sup, cfg.supervisor = some sup ∧ c > 0 ∧ Int.tmod c sup.every = 0 := by
  rw [SpecCore.shouldRunSupervisor]
  cases hs : cfg.supervisor with
  | none => simp
  | some sup =>
    simp [Bool.and_eq_true, decide_eq_true_eq, beq_iff_eq]

-- ════════════════════════════════════════════════════════════
-- C5: supervisor cadence and pre-emption
-- ════════════════════════════════════════════════════════════

/-- C5: in both loop engines (away from the iteration ceiling, outside
dry-run mode) the supervisor runs exactly on the iterations where a
supervisor is configured, the commit count since start is positive and
it is divisible by the supervisor cadence; on such an iteration the
user-supplied decision function is not called at all and the step
re-enters the next iteration, carrying the commit count reconciled
after the supervisor run. -/
theorem C5_supervisor_cadence :
    (∀ (cfg : CoreLoop.LoopConfig) (iter0 : Nat) (commits0 : Int) (startCount : Nat)
       (env : CoreLoop.LoopEnv),
      iter0 + 1 ≤ cfg.maxIterations.getD 400 →
      env.dryRun = false →
      (((CoreLoop.loopStep cfg iter0 commits0 startCount env).2.supervisorRan = true ↔
          ∃ sup, cfg.supervisor = some sup ∧ commits0 > 0 ∧ Int.tmod commits0 sup.every = 0)
        ∧ (CoreLoop.supervisorDue cfg.supervisor commits0 = true →
            CoreLoop.loopStep cfg iter0 commits0 startCount env =
              (StepOutcome.continued (iter0 + 1)
                 ((env.commitCountAfterSupervisor : Int) - (startCount : Int)),
               { supervisorRan := true }))))
    ∧ (∀ (cfg : SpecCore.SpecLoopConfig) (iter0 : Nat) (commits0 : Int) (startCount : Nat)
         (env : SpecCore.SpecEnv),
      iter0 + 1 ≤ cfg.maxIterations.getD 400 →
      env.dryRun = false →
      (((SpecCore.specLoopStep cfg iter0 commits0 startCount env).2.supervisorRan = true ↔
          ∃ sup, cfg.supervisor = some sup ∧ commits0 > 0 ∧ Int.tmod commits0 sup.every = 0)
        ∧ (SpecCore.shouldRunSupervisor cfg commits0 = true →
            SpecCore.specLoopStep cfg iter0 commits0 startCount env =
              (StepOutcome.continued (iter0 + 1)
                 ((env.commitCountAfterSupervisor : Int) - (startCount : Int)),
               { supervisorRan := true })))) := by
  constructor
  · intro cfg iter0 commits0 startCount env hmax hdry
    by_cases hsup : CoreLoop.supervisorDue cfg.supervisor commits0 = true
    · have hstep := loopStep_supervisor cfg iter0 commits0 startCount env hmax hsup hdry
      refine ⟨?_, fun _ => hstep⟩
      rw [hstep]
      simpa using (supervisorDue_iff cfg.supervisor commits0).mp hsup
    · rw [Bool.not_eq_true] at hsup
      have hstep := loopStep_normal cfg iter0 commits0 startCount env hmax hsup
      constructor
      · rw [hstep]
        have hnot : ¬ ∃ sup, cfg.supervisor = some sup ∧ commits0 > 0 ∧
            Int.tmod commits0 sup.every = 0 := by
          intro hex
          rw [(supervisorDue_iff cfg.supervisor commits0).mpr hex] at hsup
          cases hsup
        cases hA : (cfg.run (CoreLoop.buildState (iter0 + 1) commits0 env)).type
        · simp only [hdry, Bool.false_eq_true, if_false, loopTail_eq]
          simpa using hnot
        · simp only [hdry, Bool.false_eq_true, if_false, loopTail_eq]
          simpa using hnot
        · simpa using hnot
      · intro hcontra
        rw [hcontra] at hsup
        cases hsup
  · intro cfg iter0 commits0 startCount env hmax hdry
    by_cases hsup : SpecCore.shouldRunSupervisor cfg commits0 = true
    · have hstep := specLoopStep_supervisor cfg iter0 commits0 startCount env hmax hsup hdry
      refine ⟨?_, fun _ => hstep⟩
      rw [hstep]
      simpa using (shouldRunSupervisor_iff cfg commits0).mp hsup
    · rw [Bool.not_eq_true] at hsup
      have hstep := specLoopStep_normal cfg iter0 commits0 startCount env hmax hsup
      constructor
      · rw [hstep]
        have hnot : ¬ ∃ sup, cfg.supervisor = some sup ∧ commits0 > 0 ∧
            Int.tmod commits0 sup.every = 0 := by
          intro hex
          rw [(shouldRunSupervisor_iff cfg commits0).mpr hex] at hsup
          cases hsup
        cases hA : (cfg.run (SpecCore.buildSpecState cfg (iter0 + 1) commits0 env)).type
        · simp only [hdry, Bool.false_eq_true, if_false]
          split
          · simpa using hnot
          · simp only [specTail_eq]
            simpa using hnot
        · simp only [hdry, Bool.false_eq_true, if_false, specTail_eq]
          simpa using hnot
        · simpa using hnot
      · intro hcontra
        rw [hcontra] at hsup
        cases hsup

/-- C5 witness: a loop with a supervisor every 2 commits, at commit
count 2, runs the supervisor and continues without deciding. -/
theorem C5_supervisor_cadence_witness :
    (400 + 1 ≤ 401 ∧ True)
    ∧ ((CoreLoop.loopStep
          { maxIterations := some 401, supervisor := some { every := 2 },
            run := fun _ => CoreLoop.work [] } 400 2 0
          { taskFileContent := [], uncommitted := false, context := none,
            commitCountAfterSupervisor := 7, commitCountAfterAction := 0,
            pushSucceeds := true, taskFileContentAtEnd := [], once := false,
            dryRun := false }).2.supervisorRan = true ↔
        ∃ sup, (some { every := 2 } : Option CoreLoop.SupervisorConfig) = some sup ∧
          (2 : Int) > 0 ∧ Int.tmod 2 sup.every = 0)
      ∧ (CoreLoop.supervisorDue (some { every := 2 }) 2 = true →
          CoreLoop.loopStep
            { maxIterations := some 401, supervisor := some { every := 2 },
              run := fun _ => CoreLoop.work [] } 400 2 0
            { taskFileContent := [], uncommitted := false, context := none,
              commitCountAfterSupervisor := 7, commitCountAfterAction := 0,
              pushSucceeds := true, taskFileContentAtEnd := [], once := false,
              dryRun := false } =
            (StepOutcome.continued 401 7, { supervisorRan := true })) :=
  ⟨⟨by decide, trivial⟩,
    (C5_supervisor_cadence.1
      { maxIterations := some 401, supervisor := some { every := 2 },
        run := fun _ => CoreLoop.work [] } 400 2 0
      { taskFileContent := [], uncommitted := false, context := none,
        commitCountAfterSupervisor := 7, commitCountAfterAction := 0,
        pushSucceeds := true, taskFileContentAtEnd := [], once := false,
        dryRun := false } (by decide) rfl)⟩

-- ════════════════════════════════════════════════════════════
-- C6: success exit when a work action empties the backlog
-- ════════════════════════════════════════════════════════════

/-- C6: away from the ceiling, the supervisor and dry-run mode, the loop
engine exits with code 0 when the executed action was work and the
re-read task file has no unchecked todos; the check is not applied after
generate (the step continues regardless of the empty re-read state, when
the once flag is off) nor after halt (which exits 0 immediately, without
invoking the agent).  For the directory backend, in non-continuous mode
an implement action whose end-of-iteration re-read finds the directory
fully empty exits with code 0, and in continuous mode the same
implement-then-empty scenario continues instead. -/
theorem C6_work_done_success :
    (∀ (cfg : CoreLoop.LoopConfig) (iter0 : Nat) (commits0 : Int) (startCount : Nat)
       (env : CoreLoop.LoopEnv),
      iter0 + 1 ≤ cfg.maxIterations.getD 400 →
      CoreLoop.supervisorDue cfg.supervisor commits0 = false →
      env.dryRun = false →
      ((cfg.run (CoreLoop.buildState (iter0 + 1) commits0 env)).type =
          CoreLoop.ActionType.work →
        (CoreLoop.getUncheckedTodos env.taskFileContentAtEnd).length = 0 →
        (CoreLoop.loopStep cfg iter0 commits0 startCount env).1 = StepOutcome.exited 0)
      ∧ ((cfg.run (CoreLoop.buildState (iter0 + 1) commits0 env)).type =
          CoreLoop.ActionType.generate →
        env.once = false →
        (CoreLoop.loopStep cfg iter0 commits0 startCount env).1 =
          StepOutcome.continued (iter0 + 1)
            ((env.commitCountAfterAction : Int) - (startCount : Int)))
      ∧ ((cfg.run (CoreLoop.buildState (iter0 + 1) commits0 env)).type =
          CoreLoop.ActionType.halt →
        CoreLoop.loopStep cfg iter0 commits0 startCount env =
          (StepOutcome.exited 0, { decideCalled := true })))
    ∧ (∀ (cfg : SpecCore.SpecLoopConfig) (iter0 : Nat) (commits0 : Int) (startCount : Nat)
         (env : SpecCore.SpecEnv),
      iter0 + 1 ≤ cfg.maxIterations.getD 400 →
      SpecCore.shouldRunSupervisor cfg commits0 = false →
      env.dryRun = false →
      (cfg.run (SpecCore.buildSpecState cfg (iter0 + 1) commits0 env)).type =
        SpecCore.SpecActionType.implement →
      listSpecs env.dirAtEnd = [] →
      ((cfg.continuous.getD false = false →
        (SpecCore.specLoopStep cfg iter0 commits0 startCount env).1 = StepOutcome.exited 0)
      ∧ (cfg.continuous.getD false = true → env.once = false →
        (SpecCore.specLoopStep cfg iter0 commits0 startCount env).1 =
          StepOutcome.continued (iter0 + 1)
            ((env.commitCountAfterAction : Int) - (startCount : Int))))) := by
  constructor
  · intro cfg iter0 commits0 startCount env hmax hsup hdry
    have hstep := loopStep_normal cfg iter0 commits0 startCount env hmax hsup
    refine ⟨?_, ?_, ?_⟩
    · intro hact hdone
      rw [hstep, hact]
      simp only [hdry, Bool.false_eq_true, if_false, loopTail_eq]
      simp only [hdone]
      rfl
    · intro hact honce
      rw [hstep, hact]
      simp only [hdry, Bool.false_eq_true, if_false, loopTail_eq]
      simp only [show (CoreLoop.ActionType.generate == CoreLoop.ActionType.work) = false
        from rfl, Bool.and_false, Bool.false_eq_true, if_false, honce]
    · intro hact
      rw [hstep, hact]
  · intro cfg iter0 commits0 startCount env hmax hsup hdry hact hdir
    have hstep := specLoopStep_normal cfg iter0 commits0 startCount env hmax hsup
    constructor
    · intro hcont
      rw [hstep, hact]
      simp only [hdry, Bool.false_eq_true, if_false, specTail_eq]
      simp only [hcont, hdir]
      rfl
    · intro hcont honce
      rw [hstep, hact]
      simp only [hdry, Bool.false_eq_true, if_false, specTail_eq]
      simp only [hcont, hdir, honce]
      rfl

/-- C6 witness: a work action with an empty re-read task file exits 0. -/
theorem C6_work_done_success_witness :
    ((CoreLoop.getUncheckedTodos ([] : List Char)).length = 0)
    ∧ ((CoreLoop.loopStep { run := fun _ => CoreLoop.work [] } 0 0 0
        { taskFileContent := [], uncommitted := false, context := none,
          commitCountAfterSupervisor := 0, commitCountAfterAction := 0,
          pushSucceeds := true, taskFileContentAtEnd := [], once := false,
          dryRun := false }).1 = StepOutcome.exited 0) :=
  have hdone : (CoreLoop.getUncheckedTodos ([] : List Char)).length = 0 := by
    rw [show CoreLoop.getUncheckedTodos ([] : List Char) = [] from
      todoScanAll_nil_of [] rfl rfl]
    rfl
  ⟨hdone,
    ((C6_work_done_success.1 { run := fun _ => CoreLoop.work [] } 0 0 0
      { taskFileContent := [], uncommitted := false, context := none,
        commitCountAfterSupervisor := 0, commitCountAfterAction := 0,
        pushSucceeds := true, taskFileContentAtEnd := [], once := false,
        dryRun := false } (by decide) rfl rfl).1 rfl hdone)⟩

-- ════════════════════════════════════════════════════════════
-- C2: continuous-mode spin guard
-- ════════════════════════════════════════════════════════════

/-- C2: away from the ceiling, the supervisor and dry-run mode, when the
decision function returns a research action: with continuous mode on, a
re-read directory containing zero available (non-WIP) specs after the
action makes the step exit with the failure code 1; with continuous mode
off the guard never fires — the same research iteration continues (with
the once flag off), whatever the re-read directory contains. -/
theorem C2_continuous_guard :
    ∀ (cfg : SpecCore.SpecLoopConfig) (iter0 : Nat) (commits0 : Int) (startCount : Nat)
      (env : SpecCore.SpecEnv),
      iter0 + 1 ≤ cfg.maxIterations.getD 400 →
      SpecCore.shouldRunSupervisor cfg commits0 = false →
      env.dryRun = false →
      (cfg.run (SpecCore.buildSpecState cfg (iter0 + 1) commits0 env)).type =
        SpecCore.SpecActionType.research →
      ((cfg.continuous.getD false = true →
          (listSpecs env.dirAfterResearch).filter (fun s => !s.isWIP) = [] →
          (SpecCore.specLoopStep cfg iter0 commits0 startCount env).1 =
            StepOutcome.exited 1)
        ∧ (cfg.continuous.getD false = false → env.once = false →
          (SpecCore.specLoopStep cfg iter0 commits0 startCount env).1 =
            StepOutcome.continued (iter0 + 1)
              ((env.commitCountAfterAction : Int) - (startCount : Int)))) := by
  intro cfg iter0 commits0 startCount env hmax hsup hdry hact
  have hstep := specLoopStep_normal cfg iter0 commits0 startCount env hmax hsup
  constructor
  · intro hcont hempty
    rw [hstep, hact]
    simp only [hdry, Bool.false_eq_true, if_false, hcont, hempty]
    rfl
  · intro hcont honce
    rw [hstep, hact]
    simp only [hdry, Bool.false_eq_true, if_false, hcont, Bool.false_and,
      Bool.false_eq_true, if_false, specTail_eq]
    simp only [show (SpecCore.SpecActionType.research == SpecCore.SpecActionType.implement)
      = false from rfl, Bool.and_false, Bool.false_eq_true, if_false, honce]

/-- C2 witness: a continuous research iteration whose re-read directory
is empty exits with failure code 1. -/
theorem C2_continuous_guard_witness :
    ((listSpecs ([] : List (List Char × List Char))).filter (fun s => !s.isWIP) = [])
    ∧ ((SpecCore.specLoopStep
        { continuous := some true, run := fun _ => SpecCore.research [] } 0 0 0
        { dirListing := [], uncommitted := false, context := none,
          commitCountAfterSupervisor := 0, commitCountAfterAction := 0,
          dirAfterResearch := [], dirAtEnd := [], pushSucceeds := true,
          once := false, dryRun := false }).1 = StepOutcome.exited 1) :=
  ⟨rfl,
    ((C2_continuous_guard
      { continuous := some true, run := fun _ => SpecCore.research [] } 0 0 0
      { dirListing := [], uncommitted := false, context := none,
        commitCountAfterSupervisor := 0, commitCountAfterAction := 0,
        dirAfterResearch := [], dirAtEnd := [], pushSucceeds := true,
        once := false, dryRun := false } (by decide) rfl rfl rfl).1 rfl rfl)⟩

-- ════════════════════════════════════════════════════════════
-- C4: resume addendum iff dirty snapshot
-- ════════════════════════════════════════════════════════════

/-- C4 counterexample.  The claim says the resume addendum is never
omitted when the snapshot was dirty.  In the ralph worker main loop the
addendum is attached only when the tree is dirty AND it is the first
iteration: at iteration 2 with a dirty tree (and no todos), the prompt
passed to the agent runner is exactly PROMPT_FIND_WORK, which does not
end in the resume addendum. -/
theorem C4_resume_counterexample :
    (RalphMain.ralphMainStep 1 0
      { todoContent := none, uncommitted := true, context := none,
        commitCountAfterAction := 0, pushSucceeds := true, once := false,
        dryRun := false }).2 = some RalphMain.PROMPT_FIND_WORK
    ∧ RalphMain.PROMPT_RESUME.isSuffixOf RalphMain.PROMPT_FIND_WORK = false := by
  exact ⟨rfl, by decide⟩

/-- C4 amended: in the loop engine the final prompt passed to the agent
runner for both work and generate actions is withResume of the action
prompt and the snapshot dirty flag, and withResume appends the resume
addendum exactly when that flag is true — so there the addendum appears
iff the snapshot was dirty.  In the ralph worker main loop, however, the
addendum is appended iff the snapshot was dirty AND the iteration is the
first one: on iteration 1 a dirty tree always gets the addendum, while
on any later dirty iteration the base prompt is used unchanged (with
todos present it is exactly PROMPT_WITH_TODOS, which does not carry the
addendum). -/
theorem C4_resume_iff_dirty_amended :
    (∀ (cfg : CoreLoop.LoopConfig) (iter0 : Nat) (commits0 : Int) (startCount : Nat)
       (env : CoreLoop.LoopEnv),
      iter0 + 1 ≤ cfg.maxIterations.getD 400 →
      CoreLoop.supervisorDue cfg.supervisor commits0 = false →
      env.dryRun = false →
      ((cfg.run (CoreLoop.buildState (iter0 + 1) commits0 env)).type =
          CoreLoop.ActionType.work ∨
        (cfg.run (CoreLoop.buildState (iter0 + 1) commits0 env)).type =
          CoreLoop.ActionType.generate) →
      (CoreLoop.loopStep cfg iter0 commits0 startCount env).2.agentPrompt =
        some (CoreLoop.withResume
          (cfg.run (CoreLoop.buildState (iter0 + 1) commits0 env)).prompt
          env.uncommitted))
    ∧ (∀ p : List Char,
        CoreLoop.withResume p true = p ++ '\n' :: '\n' :: CoreLoop.RESUME_SUFFIX
        ∧ CoreLoop.withResume p false = p)
    ∧ (∀ (hasTodos : Bool) (context : Option (List Char)),
        RalphMain.ralphPrompt 1 hasTodos true context =
          (if hasTodos then RalphMain.PROMPT_WITH_TODOS else RalphMain.PROMPT_FIND_WORK) ++
            '\n' :: '\n' :: RalphMain.PROMPT_RESUME)
    ∧ (∀ (iteration : Nat) (context : Option (List Char)),
        iteration ≠ 1 →
        RalphMain.ralphPrompt iteration true true context = RalphMain.PROMPT_WITH_TODOS)
    ∧ RalphMain.PROMPT_RESUME.isSuffixOf RalphMain.PROMPT_WITH_TODOS = false := by
  refine ⟨?_, fun p => ⟨rfl, rfl⟩, fun hasTodos context => rfl, ?_, by decide⟩
  · intro cfg iter0 commits0 startCount env hmax hsup hdry hor
    rw [loopStep_normal cfg iter0 commits0 startCount env hmax hsup]
    rcases hor with hact | hact
    · rw [hact]
      simp only [hdry, Bool.false_eq_true, if_false, loopTail_eq]
    · rw [hact]
      simp only [hdry, Bool.false_eq_true, if_false, loopTail_eq]
  · intro iteration context hne
    have hbeq : (iteration == 1) = false := by
      simpa using hne
    rw [RalphMain.ralphPrompt.eq_def, hbeq]
    simp only [Bool.and_false, Bool.false_eq_true, if_false, if_true]

/-- C4 amended witness: the loop-engine leg applied to a dirty snapshot
with a constant work action. -/
theorem C4_resume_iff_dirty_amended_witness :
    (CoreLoop.loopStep { run := fun _ => CoreLoop.work [] } 0 0 0
      { taskFileContent := [], uncommitted := true, context := none,
        commitCountAfterSupervisor := 0, commitCountAfterAction := 0,
        pushSucceeds := true, taskFileContentAtEnd := [], once := true,
        dryRun := false }).2.agentPrompt =
      some (CoreLoop.withResume (CoreLoop.work []).prompt true) :=
  C4_resume_iff_dirty_amended.1 { run := fun _ => CoreLoop.work [] } 0 0 0
    { taskFileContent := [], uncommitted := true, context := none,
      commitCountAfterSupervisor := 0, commitCountAfterAction := 0,
      pushSucceeds := true, taskFileContentAtEnd := [], once := true,
      dryRun := false } (by decide) rfl rfl (Or.inl rfl)

theorem loopStep_never_crashed (cfg : CoreLoop.LoopConfig) (iter0 : Nat) (commits0 : Int)
    (startCount : Nat) (env : CoreLoop.LoopEnv) :
    (CoreLoop.loopStep cfg iter0 commits0 startCount env).1 ≠ StepOutcome.crashed := by
  by_cases hmax : iter0 + 1 > cfg.maxIterations.getD 400
  · simp only [CoreLoop.loopStep]
    rw [if_pos hmax]
    simp
  · by_cases hsup : CoreLoop.supervisorDue cfg.supervisor commits0 = true
    · simp only [CoreLoop.loopStep]
      rw [if_neg hmax, hsup]
      simp only [if_true]
      split <;> simp
    · rw [Bool.not_eq_true] at hsup
      rw [loopStep_normal cfg iter0 commits0 startCount env (by omega) hsup]
      generalize (cfg.run (CoreLoop.buildState (iter0 + 1) commits0 env)).type = atype
      cases atype
      all_goals simp only []
      · split
        · simp
        · rw [loopTail_eq]
          split
          · simp
          · split <;> simp
      · split
        · simp
        · rw [loopTail_eq]
          split
          · simp
          · split <;> simp
      · simp

theorem specLoopStep_never_crashed (cfg : SpecCore.SpecLoopConfig) (iter0 : Nat)
    (commits0 : Int) (startCount : Nat) (env : SpecCore.SpecEnv) :
    (SpecCore.specLoopStep cfg iter0 commits0 startCount env).1 ≠ StepOutcome.crashed := by
  by_cases hmax : iter0 + 1 > cfg.maxIterations.getD 400
  · simp only [SpecCore.specLoopStep]
    rw [if_pos hmax]
    simp
  · by_cases hsup : SpecCore.shouldRunSupervisor cfg commits0 = true
    · simp only [SpecCore.specLoopStep]
      rw [if_neg hmax, hsup]
      simp only [if_true]
      split <;> simp
    · rw [Bool.not_eq_true] at hsup
      rw [specLoopStep_normal cfg iter0 commits0 startCount env (by omega) hsup]
      generalize (cfg.run (SpecCore.buildSpecState cfg (iter0 + 1) commits0 env)).type = atype
      cases atype
      all_goals simp only []
      · split
        · simp
        · split
          · simp
          · rw [specTail_eq]
            split
            · simp
            · split <;> simp
      · split
        · simp
        · rw [specTail_eq]
          split
          · simp
          · split <;> simp
      · simp

-- ════════════════════════════════════════════════════════════
-- C8: push failures
-- ════════════════════════════════════════════════════════════

/-- C8 counterexample.  The claim says a failing periodic push is always
logged and swallowed and never terminates the loop.  The ralph worker
main loop pushes through the agents/internal.ts push, which has no
catch: on an iteration where the cadence makes the push run (four
commits past the watermark) and the remote rejects it, the rejection
propagates and the worker loop crashes instead of proceeding. -/
theorem C8_push_failure_counterexample :
    (RalphMain.ralphMainStep 0 0
      { todoContent := none, uncommitted := false, context := none,
        commitCountAfterAction := 4, pushSucceeds := false, once := false,
        dryRun := false }).1 = RalphMain.RalphOutcome.crashed := rfl

/-- C8 amended: in the loop engines the push is wrapped in a catch, so a
failing periodic push can never crash an iteration and the iteration
outcome is exactly what it would have been had the push succeeded, with
the failure recorded in the log; but the ralph worker main loop uses the
uncaught agents/internal.ts push, so there a failing periodic push
propagates and terminates the loop. -/
theorem C8_push_nonfatal_amended :
    (∀ (cfg : CoreLoop.LoopConfig) (iter0 : Nat) (commits0 : Int) (startCount : Nat)
       (env : CoreLoop.LoopEnv),
      (CoreLoop.loopStep cfg iter0 commits0 startCount env).1 ≠ StepOutcome.crashed)
    ∧ (∀ (cfg : SpecCore.SpecLoopConfig) (iter0 : Nat) (commits0 : Int) (startCount : Nat)
         (env : SpecCore.SpecEnv),
      (SpecCore.specLoopStep cfg iter0 commits0 startCount env).1 ≠ StepOutcome.crashed)
    ∧ (∀ (cfg : CoreLoop.LoopConfig) (iter0 : Nat) (commits0 : Int) (startCount : Nat)
         (env : CoreLoop.LoopEnv) (b : Bool),
      (CoreLoop.loopStep cfg iter0 commits0 startCount env).1 =
        (CoreLoop.loopStep cfg iter0 commits0 startCount
          { env with pushSucceeds := b }).1)
    ∧ (∀ (cfg : CoreLoop.LoopConfig) (iter0 : Nat) (commits0 : Int) (startCount : Nat)
         (env : CoreLoop.LoopEnv),
      iter0 + 1 ≤ cfg.maxIterations.getD 400 →
      CoreLoop.supervisorDue cfg.supervisor commits0 = false →
      env.dryRun = false →
      (cfg.run (CoreLoop.buildState (iter0 + 1) commits0 env)).type =
        CoreLoop.ActionType.work →
      (decide ((env.commitCountAfterAction : Int) - (startCount : Int) > 0)
        && (Int.tmod ((env.commitCountAfterAction : Int) - (startCount : Int))
              (cfg.pushEvery.getD 4) == 0)) = true →
      env.pushSucceeds = false →
      (CoreLoop.loopStep cfg iter0 commits0 startCount env).2.pushFailureLogged = true)
    ∧ (∀ (iter0 lastPushAt : Nat) (env : RalphMain.RalphEnv),
      env.dryRun = false →
      (env.commitCountAfterAction : Int) - (lastPushAt : Int) ≥ RalphMain.PUSH_EVERY →
      env.pushSucceeds = false →
      (RalphMain.ralphMainStep iter0 lastPushAt env).1 = RalphMain.RalphOutcome.crashed) := by
  refine ⟨loopStep_never_crashed, specLoopStep_never_crashed, ?_, ?_, ?_⟩
  · intro cfg iter0 commits0 startCount env b
    by_cases hmax : iter0 + 1 > cfg.maxIterations.getD 400
    · simp only [CoreLoop.loopStep]
      rw [if_pos hmax, if_pos hmax]
    · have hm2 : iter0 + 1 ≤ cfg.maxIterations.getD 400 := by omega
      have hbs : CoreLoop.buildState (iter0 + 1) commits0 { env with pushSucceeds := b } =
          CoreLoop.buildState (iter0 + 1) commits0 env := rfl
      by_cases hsup : CoreLoop.supervisorDue cfg.supervisor commits0 = true
      · by_cases hdry : env.dryRun = true
        · simp only [CoreLoop.loopStep]
          rw [if_neg hmax, if_neg hmax, hsup]
          simp only [if_true, hdry]
        · rw [Bool.not_eq_true] at hdry
          rw [loopStep_supervisor cfg iter0 commits0 startCount env hm2 hsup hdry,
            loopStep_supervisor cfg iter0 commits0 startCount
              { env with pushSucceeds := b } hm2 hsup hdry]
      · rw [Bool.not_eq_true] at hsup
        rw [loopStep_normal cfg iter0 commits0 startCount env hm2 hsup,
          loopStep_normal cfg iter0 commits0 startCount
            { env with pushSucceeds := b } hm2 hsup, hbs]
        generalize (cfg.run (CoreLoop.buildState (iter0 + 1) commits0 env)).type = atype
        cases atype
        all_goals simp only []
        · by_cases hdry : env.dryRun = true
          · simp only [hdry, if_true]
          · rw [Bool.not_eq_true] at hdry
            simp only [hdry, Bool.false_eq_true, if_false, loopTail_eq]
        · by_cases hdry : env.dryRun = true
          · simp only [hdry, if_true]
          · rw [Bool.not_eq_true] at hdry
            simp only [hdry, Bool.false_eq_true, if_false, loopTail_eq]
  · intro cfg iter0 commits0 startCount env hmax hsup hdry hact hdue hps
    rw [loopStep_normal cfg iter0 commits0 startCount env hmax hsup, hact]
    simp only [hdry, Bool.false_eq_true, if_false, loopTail_eq]
    simp only [hdue, hps, Bool.true_and, Bool.not_false]
  · intro iter0 lastPushAt env hdry hdue hps
    simp only [RalphMain.ralphMainStep]
    rw [hdry]
    simp only [Bool.false_eq_true, if_false]
    rw [if_pos hdue, hps]
    rfl

/-- C8 amended witness: the ralph leg applied at a due, failing push. -/
theorem C8_push_nonfatal_amended_witness :
    (((4 : Nat) : Int) - ((0 : Nat) : Int) ≥ RalphMain.PUSH_EVERY)
    ∧ (RalphMain.ralphMainStep 3 0
        { todoContent := none, uncommitted := false, context := none,
          commitCountAfterAction := 4, pushSucceeds := false, once := false,
          dryRun := false }).1 = RalphMain.RalphOutcome.crashed :=
  ⟨by decide,
    C8_push_nonfatal_amended.2.2.2.2 3 0
      { todoContent := none, uncommitted := false, context := none,
        commitCountAfterAction := 4, pushSucceeds := false, once := false,
        dryRun := false } rfl (by decide) rfl⟩

-- ════════════════════════════════════════════════════════════
-- WIP-marker helper lemmas
-- ════════════════════════════════════════════════════════════

theorem wipStrip_marker (r : List Char) : wipStrip (WIP_MARKER ++ r) = some r := rfl

theorem wipTest_false_iff (s : List Char) : wipTest s = false ↔ wipStrip s = none := by
  rw [wipTest]
  cases wipStrip s <;> simp

theorem dropLit_append_some (lit : List Char) :
    ∀ (x y t : List Char), dropLit lit x = some y → dropLit lit (x ++ t) = some (y ++ t) := by
  induction lit with
  | nil =>
    intro x y t h
    rw [dropLit] at h
    cases h
    rfl
  | cons c cs ih =>
    intro x y t h
    cases x with
    | nil => rw [dropLit] at h; cases h
    | cons d ds =>
      rw [dropLit] at h
      rw [List.cons_append, dropLit]
      split at h
      · rename_i hdc
        rw [if_pos hdc]
        exact ih ds y t h
      · cases h

theorem dropLit_append_nl_none (lit : List Char) (hnl : ∀ c ∈ lit, c ≠ '\n') :
    ∀ (x : List Char), dropLit lit x = none → dropLit lit (x ++ ['\n']) = none := by
  induction lit with
  | nil =>
    intro x h
    rw [dropLit] at h
    cases h
  | cons c cs ih =>
    intro x h
    cases x with
    | nil =>
      rw [List.nil_append, dropLit]
      rw [if_neg]
      intro hc
      exact hnl c (List.mem_cons_self c cs) hc.symm
    | cons d ds =>
      rw [dropLit] at h
      rw [List.cons_append, dropLit]
      split at h
      · rename_i hdc
        rw [if_pos hdc]
        exact ih (fun e he => hnl e (List.mem_cons_of_mem c he)) ds h
      · rename_i hdc
        rw [if_neg hdc]

theorem stageNl_none (lit w : List Char) (hlit : lit ≠ [])
    (hnl : ∀ c ∈ lit, c ≠ '\n') (h : dropLit lit (w.dropWhile jsWs) = none) :
    dropLit lit ((w ++ ['\n']).dropWhile jsWs) = none := by
  rw [List.dropWhile_append]
  split
  · rename_i hemp
    have h1 : List.dropWhile jsWs ['\n'] = [] := by decide
    rw [h1]
    cases lit with
    | nil => exact absurd rfl hlit
    | cons c cs => rfl
  · exact dropLit_append_nl_none lit hnl (w.dropWhile jsWs) h

theorem stageNl_some (lit w y : List Char) (hlit : lit ≠ [])
    (h : dropLit lit (w.dropWhile jsWs) = some y) :
    dropLit lit ((w ++ ['\n']).dropWhile jsWs) = some (y ++ ['\n']) := by
  rw [List.dropWhile_append]
  split
  · rename_i hemp
    rw [List.isEmpty_iff] at hemp
    rw [hemp] at h
    cases lit with
    | nil =>
      exact absurd rfl hlit
    | cons c cs =>
      rw [dropLit] at h
      cases h
  · exact dropLit_append_some lit (w.dropWhile jsWs) y ['\n'] h

theorem wipStrip_append_nl (l : List Char) (h : wipStrip l = none) :
    wipStrip (l ++ ['\n']) = none := by
  rw [wipStrip.eq_def] at h
  rw [wipStrip.eq_def]
  cases h1 : dropLit litCommentOpen l with
  | none =>
    rw [dropLit_append_nl_none litCommentOpen (by decide) l h1]
  | some s1 =>
    rw [h1] at h
    rw [dropLit_append_some litCommentOpen l s1 ['\n'] h1]
    simp only [] at h ⊢
    cases h2 : dropLit litWipColon (s1.dropWhile jsWs) with
    | none =>
      rw [stageNl_none litWipColon s1 (by decide) (by decide) h2]
    | some s2 =>
      rw [h2] at h
      rw [stageNl_some litWipColon s1 s2 (by decide) h2]
      simp only [] at h ⊢
      cases h3 : dropLit litInProgress (s2.dropWhile jsWs) with
      | none =>
        rw [stageNl_none litInProgress s2 (by decide) (by decide) h3]
      | some s3 =>
        rw [h3] at h
        rw [stageNl_some litInProgress s2 s3 (by decide) h3]
        simp only [] at h ⊢
        cases h4 : dropLit litCommentClose (s3.dropWhile jsWs) with
        | none =>
          rw [stageNl_none litCommentClose s3 (by decide) (by decide) h4]
        | some s4 =>
          rw [h4] at h
          cases h

theorem jsTrim_cons_ws (c : Char) (l : List Char) (hc : jsWs c = true) :
    jsTrim (c :: l) = jsTrim l := by
  rw [jsTrim, jsTrim, List.dropWhile_cons, if_pos hc]

theorem jsTrim_append_ws (l : List Char) (c : Char) (hc : jsWs c = true) :
    jsTrim (l ++ [c]) = jsTrim l := by
  rw [jsTrim, jsTrim, List.dropWhile_append]
  split
  · rename_i hemp
    rw [List.isEmpty_iff] at hemp
    rw [hemp]
    have h1 : List.dropWhile jsWs [c] = [] := by
      rw [List.dropWhile_cons, if_pos hc]
      rfl
    rw [h1]
  · exact List.rdropWhile_concat_pos jsWs _ c hc

theorem dropWhile_head_false (p : Char → Bool) (x : List Char) (a : Char) (t : List Char)
    (h : x.dropWhile p = a :: t) : p a = false := by
  induction x with
  | nil => cases h
  | cons d ds ih =>
    rw [List.dropWhile_cons] at h
    split at h
    · exact ih h
    · rename_i hd
      cases h
      exact Bool.not_eq_true _ |>.mp hd

theorem jsTrim_idem (l : List Char) : jsTrim (jsTrim l) = jsTrim l := by
  rw [jsTrim, jsTrim]
  have hfix : List.dropWhile jsWs (List.rdropWhile jsWs (List.dropWhile jsWs l)) =
      List.rdropWhile jsWs (List.dropWhile jsWs l) := by
    cases hrd : List.rdropWhile jsWs (List.dropWhile jsWs l) with
    | nil => rfl
    | cons a t =>
      have hpre : List.rdropWhile jsWs (List.dropWhile jsWs l) <+:
          List.dropWhile jsWs l := List.rdropWhile_prefix jsWs _
      rw [hrd] at hpre
      obtain ⟨rest, hrest⟩ := hpre
      have hhead : jsWs a = false := by
        apply dropWhile_head_false jsWs l a (t ++ rest)
        rw [← hrest]
        exact List.cons_append a t rest
      rw [List.dropWhile_cons, if_neg (by simp [hhead])]
  rw [hfix, List.rdropWhile_idempotent]

-- ════════════════════════════════════════════════════════════
-- C3: claim / release algebra
-- ════════════════════════════════════════════════════════════

/-- C3 counterexample.  The claim asserts release(release(x)) ==
release(x) for every file content x.  For a file that begins with two
stacked claim markers, the first release strips only the leading marker
and the result still begins with a marker, so a second release changes
the content again: release is not idempotent on all contents. -/
theorem C3_release_not_idempotent_counterexample :
    unmarkSpecAsWIP (unmarkSpecAsWIP (WIP_MARKER ++ (WIP_MARKER ++ ('h' :: 'i' :: [])))) ≠
      unmarkSpecAsWIP (WIP_MARKER ++ (WIP_MARKER ++ ('h' :: 'i' :: []))) := by
  decide

/-- C3 amended: claim (markSpecAsWIP) is idempotent on every content;
release (unmarkSpecAsWIP) of an unmarked file is a no-op; release is
idempotent on every content whose marker-stripped remainder is itself
unmarked after trimming (every content not carrying a second stacked
claim marker, in particular everything claim itself produces); and for
every unmarked content (whose trim is also unmarked, ruling out a marker
hidden behind leading whitespace) release(claim(x)) is
content-equivalent to x: the trimmed marker-stripped content the spec
reader computes is identical for release(claim(x)) and for x.  Full
release(release(x)) == release(x) fails only for the pathological
double-marker contents of the counterexample. -/
theorem C3_claim_release_amended :
    (∀ x : List Char, markSpecAsWIP (markSpecAsWIP x) = markSpecAsWIP x)
    ∧ (∀ x : List Char, wipTest x = false → unmarkSpecAsWIP x = x)
    ∧ (∀ (x r : List Char), wipStrip x = some r → wipTest (jsTrim r) = false →
        unmarkSpecAsWIP (unmarkSpecAsWIP x) = unmarkSpecAsWIP x)
    ∧ (∀ x : List Char, wipTest x = false → wipTest (jsTrim x) = false →
        jsTrim (specContent (unmarkSpecAsWIP (markSpecAsWIP x))) = jsTrim x
        ∧ jsTrim (specContent x) = jsTrim x) := by
  have hunmark_none : ∀ x : List Char, wipStrip x = none → unmarkSpecAsWIP x = x := by
    intro x hx
    simp [unmarkSpecAsWIP, hx]
  refine ⟨?_, ?_, ?_, ?_⟩
  · intro x
    by_cases h : wipTest x = true
    · have hx : markSpecAsWIP x = x := by rw [markSpecAsWIP, if_pos h]
      rw [hx, hx]
    · rw [Bool.not_eq_true] at h
      have hx : markSpecAsWIP x = WIP_MARKER ++ ('\n' :: '\n' :: x) := by
        rw [markSpecAsWIP, h]
        simp
      have hmarked : wipTest (WIP_MARKER ++ ('\n' :: '\n' :: x)) = true := by
        rw [wipTest, wipStrip_marker]
        rfl
      rw [hx, markSpecAsWIP, if_pos hmarked]
  · intro x h
    exact hunmark_none x ((wipTest_false_iff x).mp h)
  · intro x r hx hr
    have hu : unmarkSpecAsWIP x = jsTrim r ++ ['\n'] := by
      simp [unmarkSpecAsWIP, hx]
    have h2 : wipStrip (jsTrim r ++ ['\n']) = none :=
      wipStrip_append_nl _ ((wipTest_false_iff _).mp hr)
    rw [hu]
    exact hunmark_none _ h2
  · intro x h1 h2
    have hmx : markSpecAsWIP x = WIP_MARKER ++ ('\n' :: '\n' :: x) := by
      rw [markSpecAsWIP, h1]
      simp
    have hstrip : wipStrip (markSpecAsWIP x) = some ('\n' :: '\n' :: x) := by
      rw [hmx, wipStrip_marker]
    have hu : unmarkSpecAsWIP (markSpecAsWIP x) = jsTrim ('\n' :: '\n' :: x) ++ ['\n'] := by
      simp [unmarkSpecAsWIP, hstrip]
    have htr : jsTrim ('\n' :: '\n' :: x) = jsTrim x := by
      rw [jsTrim_cons_ws '\n' _ (by decide), jsTrim_cons_ws '\n' _ (by decide)]
    have hnone : wipStrip (jsTrim x) = none := (wipTest_false_iff _).mp h2
    have h3 : wipStrip (jsTrim x ++ ['\n']) = none := wipStrip_append_nl _ hnone
    constructor
    · rw [hu, htr]
      have hsc : specContent (jsTrim x ++ ['\n']) = jsTrim x ++ ['\n'] := by
        simp [specContent, h3]
      rw [hsc, jsTrim_append_ws _ '\n' (by decide), jsTrim_idem]
    · have hx0 : wipStrip x = none := (wipTest_false_iff x).mp h1
      simp [specContent, hx0]

/-- C3 amended witness: the content-equivalence leg at a plain unmarked
content. -/
theorem C3_claim_release_amended_witness :
    (wipTest ("hello".toList) = false ∧ wipTest (jsTrim ("hello".toList)) = false)
    ∧ (jsTrim (specContent (unmarkSpecAsWIP (markSpecAsWIP ("hello".toList)))) =
         jsTrim ("hello".toList)
       ∧ jsTrim (specContent ("hello".toList)) = jsTrim ("hello".toList)) :=
  ⟨⟨by decide, by decide⟩,
    C3_claim_release_amended.2.2.2 ("hello".toList) (by decide) (by decide)⟩
